import Mathlib

/-!
# MediVault: verification of the encrypted-storage and consent core

Shallow embedding of the MediVault source (Next.js / TypeScript) into Lean 4,
with theorems settling the behavioural claims about:

* the off-chain connection/consent workflow (`lib/firebase/firestore.ts`),
* the doctor-facing record gates (`lib/actions.ts`),
* the application-record cipher (`lib/crypto.ts`),
* the Pinata storage client with gateway fallback (`lib/pinata.ts`),
* the on-chain file registry client (`lib/contract.ts`),
* the local plaintext upload route (`app/api/upload/route.ts`) and the record
  form pipeline (`components/dashboard/HealthRecordForm.tsx`),
* the attachment viewer (`PinataFileViewer`).

I/O (Firestore, HTTP, the ledger) is modelled by explicit state passing and
response oracles; JavaScript numbers holding integral quantities are modelled
as `Nat`/`Int`; byte buffers as `List Nat` with values `< 256`.
-/

namespace MediVault

/-! ## Firestore user documents

From `lib/types.ts` (`UserDocument`) and `lib/firebase/firestore.ts`.
The optional `pendingConnections?`/`successfulConnections?` arrays are read in
the source with `?.includes(...)` (absent behaves as empty), so they are
modelled as plain lists with `[]` for absent. -/

structure UserDoc where
  uid : String
  email : String
  role : String
  pendingConnections : List String
  successfulConnections : List String
  deriving Repr, DecidableEq

/-- The `users` collection: keyed documents, modelled as an association list. -/
abbrev UserStore := List (String × UserDoc)

/-- `getUserDocument` (firestore.ts): fetch the user document by id. -/
def getUserDocument : UserStore → String → Option UserDoc
  | [], _ => none
  | (k, d) :: tl, userId => if k = userId then some d else getUserDocument tl userId

/-- Firestore `arrayUnion`: adds the element only if not already present. -/
def arrayUnion (xs : List String) (x : String) : List String :=
  if x ∈ xs then xs else xs ++ [x]

/-- Firestore `arrayRemove`: removes all occurrences of the element. -/
def arrayRemove (xs : List String) (x : String) : List String :=
  xs.filter (fun y => y ≠ x)

/-- `updateDoc` on a user document: applies `f` to the document stored at
`userId`, leaving every other document unchanged. -/
def updateUser : UserStore → String → (UserDoc → UserDoc) → UserStore
  | [], _, _ => []
  | (k, d) :: tl, userId, f =>
    if k = userId then (k, f d) :: updateUser tl userId f
    else (k, d) :: updateUser tl userId f

/-- Result shape `{ success, error? }` returned by the connection actions. -/
structure ActionResult where
  success : Bool
  error : Option String
  deriving Repr, DecidableEq

/-- `createConnectionRequest` (firestore.ts): a doctor requests a connection
with a patient.  Rejects when already connected or already requested;
otherwise adds each party's id to the other's `pendingConnections`. -/
def createConnectionRequest (store : UserStore) (doctorId patientId : String) :
    ActionResult × UserStore :=
  match getUserDocument store doctorId, getUserDocument store patientId with
  | some doctorDoc, some _ =>
    if patientId ∈ doctorDoc.successfulConnections then
      (⟨false, some "You are already connected with this patient."⟩, store)
    else if patientId ∈ doctorDoc.pendingConnections then
      (⟨false, some "A connection request has already been sent."⟩, store)
    else
      let store1 := updateUser store doctorId
        (fun d => { d with pendingConnections := arrayUnion d.pendingConnections patientId })
      let store2 := updateUser store1 patientId
        (fun p => { p with pendingConnections := arrayUnion p.pendingConnections doctorId })
      (⟨true, none⟩, store2)
  | _, _ => (⟨false, some "Doctor or patient not found."⟩, store)

/-- `updateConnectionRequest` (firestore.ts): the patient resolves a pending
request; removes the pending entries on both sides and, when approved, adds
each party to the other's `successfulConnections`. -/
def updateConnectionRequest (store : UserStore) (patientId doctorId : String)
    (status : String) : ActionResult × UserStore :=
  let store1 := updateUser store patientId
    (fun p => { p with pendingConnections := arrayRemove p.pendingConnections doctorId })
  let store2 := updateUser store1 doctorId
    (fun d => { d with pendingConnections := arrayRemove d.pendingConnections patientId })
  let store3 :=
    if status == "approved" then
      let s := updateUser store2 patientId
        (fun p => { p with successfulConnections := arrayUnion p.successfulConnections doctorId })
      updateUser s doctorId
        (fun d => { d with successfulConnections := arrayUnion d.successfulConnections patientId })
    else store2
  (⟨true, none⟩, store3)

/-! ### Helper lemmas on the user store -/

theorem getUser_updateUser_self {store : UserStore} {uid : String} {d : UserDoc}
    (f : UserDoc → UserDoc) (h : getUserDocument store uid = some d) :
    getUserDocument (updateUser store uid f) uid = some (f d) := by
  induction store with
  | nil => simp [getUserDocument] at h
  | cons hd tl ih =>
    obtain ⟨k, v⟩ := hd
    by_cases he : k = uid
    · subst he
      have hv : v = d := by simpa [getUserDocument] using h
      simp [updateUser, getUserDocument, hv]
    · simp only [getUserDocument, if_neg he] at h
      simp [updateUser, getUserDocument, he, ih h]

theorem getUser_updateUser_other {store : UserStore} {uid uid' : String}
    (f : UserDoc → UserDoc) (hne : uid' ≠ uid) :
    getUserDocument (updateUser store uid f) uid' = getUserDocument store uid' := by
  induction store with
  | nil => simp [getUserDocument, updateUser]
  | cons hd tl ih =>
    obtain ⟨k, v⟩ := hd
    by_cases he : k = uid
    · subst he
      have hk : k ≠ uid' := fun h => hne h.symm
      simp only [updateUser, if_pos rfl, getUserDocument, if_neg hk]
      exact ih
    · simp only [updateUser, if_neg he, getUserDocument]
      by_cases he' : k = uid'
      · simp [he']
      · simp [he', ih]

theorem getUser_updateUser (store : UserStore) (uid uid' : String)
    (f : UserDoc → UserDoc) :
    getUserDocument (updateUser store uid f) uid' =
      if uid' = uid then (getUserDocument store uid).map f
      else getUserDocument store uid' := by
  by_cases h : uid' = uid
  · subst h
    cases hg : getUserDocument store uid' with
    | none =>
      simp only [if_pos rfl, hg, Option.map_none']
      induction store with
      | nil => simp [getUserDocument, updateUser]
      | cons hd tl ih =>
        obtain ⟨k, v⟩ := hd
        by_cases he : k = uid'
        · subst he; simp [getUserDocument] at hg
        · simp only [getUserDocument, if_neg he] at hg
          simp [updateUser, getUserDocument, he, ih hg]
    | some d => simp [if_pos rfl, hg, getUser_updateUser_self f hg]
  · simp [if_neg h, getUser_updateUser_other f h]

/-- C8: `requestConnection` lifecycle.  Given existing doctor and patient
documents, the request is rejected as already-connected when the patient is in
the doctor's `successfulConnections`, rejected as already-requested when the
patient is in the doctor's `pendingConnections`, and otherwise succeeds after
adding each party's id to the other's `pendingConnections`; an immediate
second request after a successful one is rejected as already-requested. -/
theorem requestConnection_lifecycle
    (store : UserStore) (doctorId patientId : String) (dDoc pDoc : UserDoc)
    (hd : getUserDocument store doctorId = some dDoc)
    (hp : getUserDocument store patientId = some pDoc)
    (hne : doctorId ≠ patientId) :
    (patientId ∈ dDoc.successfulConnections →
      createConnectionRequest store doctorId patientId =
        (⟨false, some "You are already connected with this patient."⟩, store))
    ∧ (patientId ∉ dDoc.successfulConnections →
       patientId ∈ dDoc.pendingConnections →
      createConnectionRequest store doctorId patientId =
        (⟨false, some "A connection request has already been sent."⟩, store))
    ∧ (patientId ∉ dDoc.successfulConnections →
       patientId ∉ dDoc.pendingConnections →
      (createConnectionRequest store doctorId patientId).fst = ⟨true, none⟩ ∧
      getUserDocument (createConnectionRequest store doctorId patientId).snd doctorId =
        some { dDoc with
                 pendingConnections := arrayUnion dDoc.pendingConnections patientId } ∧
      getUserDocument (createConnectionRequest store doctorId patientId).snd patientId =
        some { pDoc with
                 pendingConnections := arrayUnion pDoc.pendingConnections doctorId } ∧
      (createConnectionRequest
          (createConnectionRequest store doctorId patientId).snd doctorId patientId).fst =
        ⟨false, some "A connection request has already been sent."⟩) := by
  have hpd : patientId ≠ doctorId := fun h => hne h.symm
  refine ⟨fun hsucc => ?_, fun hnsucc hpend => ?_, fun hnsucc hnpend => ?_⟩
  · simp [createConnectionRequest, hd, hp, hsucc]
  · simp [createConnectionRequest, hd, hp, hnsucc, hpend]
  · have hstep :
        (createConnectionRequest store doctorId patientId).snd =
          updateUser
            (updateUser store doctorId
              (fun d => { d with
                pendingConnections := arrayUnion d.pendingConnections patientId }))
            patientId
            (fun p => { p with
              pendingConnections := arrayUnion p.pendingConnections doctorId }) := by
      simp [createConnectionRequest, hd, hp, hnsucc, hnpend]
    have hres : (createConnectionRequest store doctorId patientId).fst = ⟨true, none⟩ := by
      simp [createConnectionRequest, hd, hp, hnsucc, hnpend]
    have hdoc :
        getUserDocument (createConnectionRequest store doctorId patientId).snd doctorId =
          some { dDoc with
                   pendingConnections := arrayUnion dDoc.pendingConnections patientId } := by
      rw [hstep, getUser_updateUser, if_neg hne, getUser_updateUser, if_pos rfl, hd]
      rfl
    have hpat :
        getUserDocument (createConnectionRequest store doctorId patientId).snd patientId =
          some { pDoc with
                   pendingConnections := arrayUnion pDoc.pendingConnections doctorId } := by
      rw [hstep, getUser_updateUser, if_pos rfl, getUser_updateUser, if_neg hpd, hp]
      rfl
    refine ⟨hres, hdoc, hpat, ?_⟩
    have hmem : patientId ∈ arrayUnion dDoc.pendingConnections patientId := by
      by_cases h : patientId ∈ dDoc.pendingConnections
      · simp [arrayUnion, h]
      · simp [arrayUnion, h]
    generalize hs : (createConnectionRequest store doctorId patientId).snd = s' at hdoc hpat ⊢
    simp [createConnectionRequest, hdoc, hpat, hnsucc, hmem]

/-- Concrete witness for the C8 lifecycle theorem: two fresh users. -/
theorem requestConnection_lifecycle_witness :
    let dDoc : UserDoc := ⟨"d1", "doc@x.com", "doctor", [], []⟩
    let pDoc : UserDoc := ⟨"p1", "pat@x.com", "patient", [], []⟩
    let store : UserStore := [("d1", dDoc), ("p1", pDoc)]
    ("p1" ∈ dDoc.successfulConnections →
      createConnectionRequest store "d1" "p1" =
        (⟨false, some "You are already connected with this patient."⟩, store))
    ∧ ("p1" ∉ dDoc.successfulConnections →
       "p1" ∈ dDoc.pendingConnections →
      createConnectionRequest store "d1" "p1" =
        (⟨false, some "A connection request has already been sent."⟩, store))
    ∧ ("p1" ∉ dDoc.successfulConnections →
       "p1" ∉ dDoc.pendingConnections →
      (createConnectionRequest store "d1" "p1").fst = ⟨true, none⟩ ∧
      getUserDocument (createConnectionRequest store "d1" "p1").snd "d1" =
        some { dDoc with pendingConnections := arrayUnion dDoc.pendingConnections "p1" } ∧
      getUserDocument (createConnectionRequest store "d1" "p1").snd "p1" =
        some { pDoc with pendingConnections := arrayUnion pDoc.pendingConnections "d1" } ∧
      (createConnectionRequest
          (createConnectionRequest store "d1" "p1").snd "d1" "p1").fst =
        ⟨false, some "A connection request has already been sent."⟩) :=
  requestConnection_lifecycle _ "d1" "p1" _ _ (by decide) (by decide) (by decide)

/-! ## Access registry client (`src/lib/contract.ts`)

`createFileOnChain` submits the `createFile` transaction and waits for its
receipt (modelled as the `Receipt` handed to the function by the ledger
oracle); the event decoding of `contract.interface.parseLog` is a parameter,
since event encoding varies across ledger client versions. -/

structure ParsedLog where
  name : String
  args : List Int
  deriving Repr, DecidableEq

structure Receipt (Log : Type) where
  hash : String
  logs : List Log

/-- JavaScript `x || d` on BigInt values: `0n` is falsy. -/
def jsOrBigInt (v : Option Int) (dflt : Int) : Int :=
  match v with
  | some x => if x = 0 then dflt else x
  | none => dflt

/-- `createFileOnChain` (contract.ts): find the first receipt log that parses
to a `FileCreated` event and return its first argument as the `fileId`;
otherwise fall back to the contract's `getTotalFiles()` value. -/
def createFileOnChain {Log : Type} (parseLog : Log → Option ParsedLog)
    (getTotalFiles : Int) (receipt : Receipt Log) : String × Int :=
  let event := receipt.logs.find? (fun log =>
    match parseLog log with
    | some parsed => parsed.name == "FileCreated"
    | none => false)
  let fileId : Int :=
    match event with
    | some e =>
      match parseLog e with
      | some parsed => jsOrBigInt parsed.args.head? 0
      | none => 0
    | none => getTotalFiles
  (receipt.hash, fileId)

theorem find?_append_cons {α : Type} (p : α → Bool) (pre : List α) (l : α)
    (post : List α) (hpre : ∀ x ∈ pre, p x = false) (hl : p l = true) :
    (pre ++ l :: post).find? p = some l := by
  induction pre with
  | nil => simp [List.find?, hl]
  | cons hd tl ih =>
    simp only [List.cons_append, List.find?, hpre hd (by simp)]
    exact ih (fun x hx => hpre x (by simp [hx]))

/-- C9: `createFileOnChain` returns the transaction hash of the awaited
receipt together with the `fileId` parsed from the first `FileCreated` event
among the receipt's logs; when no log parses to a `FileCreated` event, it
falls back to the contract's total file count. -/
theorem createFileOnChain_event_or_fallback {Log : Type}
    (parseLog : Log → Option ParsedLog) (totalFiles : Int) (receipt : Receipt Log) :
    ((∀ l ∈ receipt.logs, ∀ p, parseLog l = some p → p.name ≠ "FileCreated") →
      createFileOnChain parseLog totalFiles receipt = (receipt.hash, totalFiles))
    ∧ (∀ pre l post, receipt.logs = pre ++ l :: post →
        (∀ l' ∈ pre, ∀ p, parseLog l' = some p → p.name ≠ "FileCreated") →
        ∀ p, parseLog l = some p → p.name = "FileCreated" →
        createFileOnChain parseLog totalFiles receipt =
          (receipt.hash, jsOrBigInt p.args.head? 0)) := by
  constructor
  · intro hnone
    have hfind : receipt.logs.find? (fun log =>
        match parseLog log with
        | some parsed => parsed.name == "FileCreated"
        | none => false) = none := by
      rw [List.find?_eq_none]
      intro l hl
      cases hpl : parseLog l with
      | none => simp
      | some p => simpa using hnone l hl p hpl
    simp [createFileOnChain, hfind]
  · intro pre l post hsplit hpre p hp hname
    have hfind : receipt.logs.find? (fun log =>
        match parseLog log with
        | some parsed => parsed.name == "FileCreated"
        | none => false) = some l := by
      rw [hsplit]
      refine find?_append_cons _ pre l post (fun x hx => ?_) (by simp [hp, hname])
      cases hph : parseLog x with
      | none => simp
      | some q => simpa using hpre x hx q hph
    simp [createFileOnChain, hfind, hp]

/-- Concrete witness for C9: one receipt whose second log parses to a
`FileCreated` event with fileId 7, and one receipt with no parsable event. -/
theorem createFileOnChain_event_or_fallback_witness :
    (createFileOnChain
        (fun l : Nat => if l = 1 then some ⟨"FileCreated", [7, 3]⟩ else none)
        42 ⟨"0xabc", [0, 1, 2]⟩ = ("0xabc", 7))
    ∧ (createFileOnChain (fun _ : Nat => none) 42 ⟨"0xdef", [0, 1]⟩ =
        ("0xdef", 42)) := by
  constructor
  · have h := (createFileOnChain_event_or_fallback
      (fun l : Nat => if l = 1 then some ⟨"FileCreated", [7, 3]⟩ else none)
      42 ⟨"0xabc", [0, 1, 2]⟩).2 [0] 1 [2] (by decide)
      (by decide) ⟨"FileCreated", [7, 3]⟩ (by decide) (by decide)
    simpa using h
  · have h := (createFileOnChain_event_or_fallback
      (fun _ : Nat => none) 42 ⟨"0xdef", [0, 1]⟩).1 (by simp)
    simpa using h

/-! ## Content-addressed storage client (`src/lib/pinata.ts`)

`getEncryptedFile` iterates the gateway list sequentially; every HTTP exchange
is modelled by a per-gateway behaviour (latency plus reply).  The
`AbortController` timer fires after 30 000 ms, so a request whose latency
reaches the bound surfaces as an abort error.  Alongside the result the model
returns the trace of gateway bases actually contacted. -/

inductive GatewayReply where
  | http (status : Nat) (statusText : String) (body : List Nat)
  | netError (msg : String)
  deriving Repr, DecidableEq

structure GatewayBehaviour where
  latencyMs : Nat
  reply : GatewayReply
  deriving Repr, DecidableEq

/-- The `setTimeout(() => controller.abort(), 30000)` bound. -/
def fetchTimeoutMs : Nat := 30000

/-- `getGatewayBase` (pinata.ts): dedicated subdomain gateway if configured
(the env value is truthy, hence nonempty after trim), else the default. -/
def getGatewayBase (subdomain : Option String) : String :=
  match subdomain with
  | some s => "https://" ++ s ++ ".mypinata.cloud/ipfs"
  | none => "https://gateway.pinata.cloud/ipfs"

/-- The ordered gateway list of `getEncryptedFile`: primary Pinata gateway,
then the three public fallbacks. -/
def gatewayList (subdomain : Option String) : List String :=
  [getGatewayBase subdomain,
   "https://ipfs.io/ipfs",
   "https://gateway.ipfs.io/ipfs",
   "https://dweb.link/ipfs"]

/-- One `fetch` against one gateway: abort at the timeout bound; non-2xx
throws with status and text; an empty body throws; otherwise the bytes are
returned. -/
def attemptGateway (gatewayBase : String) (g : GatewayBehaviour) :
    Except String (List Nat) :=
  if fetchTimeoutMs ≤ g.latencyMs then
    Except.error "The operation was aborted"
  else
    match g.reply with
    | .http status statusText body =>
      if 200 ≤ status ∧ status ≤ 299 then
        if body.isEmpty then Except.error "Gateway returned empty response"
        else Except.ok body
      else
        Except.error
          ("Gateway " ++ gatewayBase ++ " returned " ++ toString status ++ ": " ++ statusText)
    | .netError msg => Except.error msg

/-- The exhaustion error thrown after the loop: carries the last underlying
error and the CID. -/
def allGatewaysFailedMsg (lastError : Option String) (cid : String) : String :=
  "Failed to fetch file from all IPFS gateways. Last error: " ++
    lastError.getD "Unknown error" ++ ". CID: " ++ cid ++
    ". Please verify the file is pinned in Pinata."

/-- The `for (const gatewayBase of gateways)` loop with its `lastError`
accumulator; also returns the trace of bases contacted. -/
def getEncryptedFileGo (responses : String → GatewayBehaviour) (cid : String) :
    List String → Option String → Except String (List Nat) × List String
  | [], lastError => (Except.error (allGatewaysFailedMsg lastError cid), [])
  | base :: rest, lastError =>
    match attemptGateway base (responses base) with
    | .ok bytes => (Except.ok bytes, [base])
    | .error msg =>
      let r := getEncryptedFileGo responses cid rest (some msg)
      (r.fst, base :: r.snd)

/-- `getEncryptedFile` (pinata.ts). -/
def getEncryptedFile (subdomain : Option String)
    (responses : String → GatewayBehaviour) (cid : String) :
    Except String (List Nat) × List String :=
  if cid = "" then (Except.error "Invalid CID", [])
  else getEncryptedFileGo responses cid (gatewayList subdomain) none

/-- Whether an attempt against this gateway succeeds. -/
def attemptOk (responses : String → GatewayBehaviour) (base : String) : Bool :=
  match attemptGateway base (responses base) with
  | .ok _ => true
  | .error _ => false

theorem go_first_ok (responses : String → GatewayBehaviour) (cid : String)
    (pre : List String) (b : String) (post : List String) (lastError : Option String)
    (bytes : List Nat) (hpre : ∀ b' ∈ pre, attemptOk responses b' = false)
    (hb : attemptGateway b (responses b) = Except.ok bytes) :
    getEncryptedFileGo responses cid (pre ++ b :: post) lastError =
      (Except.ok bytes, pre ++ [b]) := by
  induction pre generalizing lastError with
  | nil => simp [getEncryptedFileGo, hb]
  | cons hd tl ih =>
    have hf := hpre hd (by simp)
    unfold attemptOk at hf
    cases hhd : attemptGateway hd (responses hd) with
    | ok v => rw [hhd] at hf; simp at hf
    | error msg =>
      simp only [List.cons_append, getEncryptedFileGo, hhd, List.append_eq]
      rw [ih (some msg) (fun b' hb' => hpre b' (by simp [hb']))]

/-- The value of the `lastError` accumulator after attempting all of `bases`. -/
def lastErrorAfter (responses : String → GatewayBehaviour)
    (bases : List String) (lastError : Option String) : Option String :=
  bases.foldl (fun acc b =>
    match attemptGateway b (responses b) with
    | .error m => some m
    | .ok _ => acc) lastError

theorem go_fail_trace (responses : String → GatewayBehaviour) (cid : String)
    (bases : List String) :
    ∀ lastError, (∀ b ∈ bases, attemptOk responses b = false) →
      (getEncryptedFileGo responses cid bases lastError).snd = bases := by
  induction bases with
  | nil => intro lastError _; simp [getEncryptedFileGo]
  | cons hd tl ih =>
    intro lastError hfail
    have hf := hfail hd (by simp)
    unfold attemptOk at hf
    cases hhd : attemptGateway hd (responses hd) with
    | ok v => rw [hhd] at hf; simp at hf
    | error m =>
      simp only [getEncryptedFileGo, hhd]
      simp [ih (some m) (fun b hb => hfail b (by simp [hb]))]

theorem go_fail_fst (responses : String → GatewayBehaviour) (cid : String)
    (bases : List String) :
    ∀ lastError, (∀ b ∈ bases, attemptOk responses b = false) →
      (getEncryptedFileGo responses cid bases lastError).fst =
        Except.error
          (allGatewaysFailedMsg (lastErrorAfter responses bases lastError) cid) := by
  induction bases with
  | nil => intro lastError _; simp [getEncryptedFileGo, lastErrorAfter]
  | cons hd tl ih =>
    intro lastError hfail
    have hf := hfail hd (by simp)
    unfold attemptOk at hf
    cases hhd : attemptGateway hd (responses hd) with
    | ok v => rw [hhd] at hf; simp at hf
    | error m =>
      simp only [getEncryptedFileGo, hhd]
      have : lastErrorAfter responses (hd :: tl) lastError =
          lastErrorAfter responses tl (some m) := by
        simp [lastErrorAfter, List.foldl_cons, hhd]
      rw [this]
      exact ih (some m) (fun b hb => hfail b (by simp [hb]))

theorem lastErrorAfter_eq_last (responses : String → GatewayBehaviour)
    (bases : List String) :
    ∀ lastError lastBase, (∀ b ∈ bases, attemptOk responses b = false) →
      bases.getLast? = some lastBase →
      ∃ msg, attemptGateway lastBase (responses lastBase) = Except.error msg ∧
        lastErrorAfter responses bases lastError = some msg := by
  induction bases with
  | nil => intro lastError lastBase _ hlast; simp at hlast
  | cons hd tl ih =>
    intro lastError lastBase hfail hlast
    have hf := hfail hd (by simp)
    unfold attemptOk at hf
    cases hhd : attemptGateway hd (responses hd) with
    | ok v => rw [hhd] at hf; simp at hf
    | error m =>
      have hstep : lastErrorAfter responses (hd :: tl) lastError =
          lastErrorAfter responses tl (some m) := by
        simp [lastErrorAfter, List.foldl_cons, hhd]
      cases tl with
      | nil =>
        simp at hlast
        subst hlast
        exact ⟨m, hhd, by rw [hstep]; simp [lastErrorAfter]⟩
      | cons t ts =>
        have hlast' : (t :: ts).getLast? = some lastBase := by
          simpa using hlast
        obtain ⟨msg, h1, h2⟩ :=
          ih (some m) lastBase (fun b hb => hfail b (by simp [hb])) hlast'
        exact ⟨msg, h1, by rw [hstep]; exact h2⟩

theorem go_trace_prefix (responses : String → GatewayBehaviour) (cid : String)
    (bases : List String) :
    ∀ lastError, (getEncryptedFileGo responses cid bases lastError).snd <+: bases := by
  induction bases with
  | nil => intro lastError; simp [getEncryptedFileGo]
  | cons hd tl ih =>
    intro lastError
    cases hhd : attemptGateway hd (responses hd) with
    | ok v => simp [getEncryptedFileGo, hhd]
    | error m =>
      simp only [getEncryptedFileGo, hhd]
      obtain ⟨t, ht⟩ := ih (some m)
      exact ⟨t, by simp [ht]⟩

theorem string_length_pos_of_ne_empty {s : String} (h : s ≠ "") : 0 < s.length := by
  cases s with
  | mk data =>
    cases data with
    | nil => simp at h
    | cons a l => simp [String.length]

theorem gatewayList_nodup (subdomain : Option String)
    (hsub : ∀ s, subdomain = some s → s ≠ "") :
    (gatewayList subdomain).Nodup := by
  cases subdomain with
  | none => decide
  | some s =>
    have hs : 0 < s.length := string_length_pos_of_ne_empty (hsub s rfl)
    have h8 : ("https://" : String).length = 8 := by decide
    have hsuf : (".mypinata.cloud/ipfs" : String).length = 20 := by decide
    have hlen : (getGatewayBase (some s)).length = 28 + s.length := by
      show ("https://" ++ s ++ ".mypinata.cloud/ipfs").length = 28 + s.length
      rw [String.length_append, String.length_append, h8, hsuf]
      omega
    have h1 : getGatewayBase (some s) ≠ "https://ipfs.io/ipfs" := by
      intro h
      have hl := congrArg String.length h
      rw [hlen, show ("https://ipfs.io/ipfs" : String).length = 20 from by decide] at hl
      omega
    have h2 : getGatewayBase (some s) ≠ "https://gateway.ipfs.io/ipfs" := by
      intro h
      have hl := congrArg String.length h
      rw [hlen,
        show ("https://gateway.ipfs.io/ipfs" : String).length = 28 from by decide] at hl
      omega
    have h3 : getGatewayBase (some s) ≠ "https://dweb.link/ipfs" := by
      intro h
      have hl := congrArg String.length h
      rw [hlen, show ("https://dweb.link/ipfs" : String).length = 22 from by decide] at hl
      omega
    refine List.nodup_cons.2 ⟨?_, by decide⟩
    simp [h1, h2, h3]

/-- C5: `getEncryptedFile` tries the ordered gateway list sequentially, each
request bounded by the 30-second abort timer; a non-2xx status, empty body,
network error or timeout is recorded and the next gateway is tried; no
gateway is contacted twice in one call; the first gateway producing a
non-empty 2xx body yields the result, and when all gateways are exhausted the
call fails with an error carrying the last underlying error and the CID. -/
theorem getEncryptedFile_gateway_fallback
    (subdomain : Option String) (responses : String → GatewayBehaviour)
    (cid : String) (hcid : cid ≠ "")
    (hsub : ∀ s, subdomain = some s → s ≠ "") :
    (∀ b, fetchTimeoutMs ≤ (responses b).latencyMs →
      attemptGateway b (responses b) = Except.error "The operation was aborted")
    ∧ (∀ pre b post bytes, gatewayList subdomain = pre ++ b :: post →
        (∀ b' ∈ pre, attemptOk responses b' = false) →
        attemptGateway b (responses b) = Except.ok bytes →
        getEncryptedFile subdomain responses cid = (Except.ok bytes, pre ++ [b]))
    ∧ ((getEncryptedFile subdomain responses cid).snd.Nodup ∧
        (getEncryptedFile subdomain responses cid).snd <+: gatewayList subdomain)
    ∧ ((∀ b ∈ gatewayList subdomain, attemptOk responses b = false) →
        ∃ msg,
          attemptGateway "https://dweb.link/ipfs" (responses "https://dweb.link/ipfs") =
            Except.error msg ∧
          getEncryptedFile subdomain responses cid =
            (Except.error (allGatewaysFailedMsg (some msg) cid), gatewayList subdomain)) := by
  have hunfold : getEncryptedFile subdomain responses cid =
      getEncryptedFileGo responses cid (gatewayList subdomain) none := by
    simp [getEncryptedFile, hcid]
  refine ⟨?_, ?_, ?_, ?_⟩
  · intro b h
    simp [attemptGateway, h]
  · intro pre b post bytes hsplit hpre hb
    rw [hunfold, hsplit]
    exact go_first_ok responses cid pre b post none bytes hpre hb
  · have hpref := go_trace_prefix responses cid (gatewayList subdomain) none
    rw [hunfold]
    exact ⟨hpref.sublist.nodup (gatewayList_nodup subdomain hsub), hpref⟩
  · intro hfail
    have hlast : (gatewayList subdomain).getLast? = some "https://dweb.link/ipfs" := by
      simp [gatewayList]
    obtain ⟨msg, hmsg, hacc⟩ :=
      lastErrorAfter_eq_last responses (gatewayList subdomain) none
        "https://dweb.link/ipfs" hfail hlast
    refine ⟨msg, hmsg, ?_⟩
    rw [hunfold]
    have h1 := go_fail_fst responses cid (gatewayList subdomain) none hfail
    have h2 := go_fail_trace responses cid (gatewayList subdomain) none hfail
    rw [hacc] at h1
    exact Prod.ext h1 h2

/-- Concrete witness for C5: the default gateway configuration, the first two
gateways failing with network errors and the third returning valid bytes
(spec scenario); hypotheses discharged at `cid = "QmX"`. -/
theorem getEncryptedFile_gateway_fallback_witness :
    let responses : String → GatewayBehaviour := fun base =>
      if base = "https://gateway.pinata.cloud/ipfs" then ⟨120, .netError "ECONNRESET"⟩
      else if base = "https://ipfs.io/ipfs" then ⟨31000, .http 200 "OK" [9, 9]⟩
      else if base = "https://gateway.ipfs.io/ipfs" then ⟨50, .http 200 "OK" [1, 2, 3]⟩
      else ⟨10, .http 500 "Internal Server Error" []⟩
    (∀ b, fetchTimeoutMs ≤ (responses b).latencyMs →
      attemptGateway b (responses b) = Except.error "The operation was aborted")
    ∧ (∀ pre b post bytes, gatewayList none = pre ++ b :: post →
        (∀ b' ∈ pre, attemptOk responses b' = false) →
        attemptGateway b (responses b) = Except.ok bytes →
        getEncryptedFile none responses "QmX" = (Except.ok bytes, pre ++ [b]))
    ∧ ((getEncryptedFile none responses "QmX").snd.Nodup ∧
        (getEncryptedFile none responses "QmX").snd <+: gatewayList none)
    ∧ ((∀ b ∈ gatewayList none, attemptOk responses b = false) →
        ∃ msg,
          attemptGateway "https://dweb.link/ipfs" (responses "https://dweb.link/ipfs") =
            Except.error msg ∧
          getEncryptedFile none responses "QmX" =
            (Except.error (allGatewaysFailedMsg (some msg) "QmX"), gatewayList none)) :=
  getEncryptedFile_gateway_fallback none _ "QmX" (by decide) (by simp)

/-! ## Byte-level primitives

Models of the runtime primitives used by `lib/crypto.ts`:
`Buffer.from(_, 'base64')` / `.toString('base64')` (RFC 4648 base64 with
padding) and `TextEncoder` / `TextDecoder` (UTF-8).  Bytes are `Nat < 256`. -/

def b64Alphabet : List Char :=
  "ABCDEFGHIJKLMNOPQRSTUVWXYZabcdefghijklmnopqrstuvwxyz0123456789+/".data

/-- Sextet value to base64 character. -/
def b64Char (n : Nat) : Char := b64Alphabet.getD n 'A'

/-- Base64 character to sextet value. -/
def b64Index (c : Char) : Option Nat :=
  b64Alphabet.indexOf? c

theorem b64Index_b64Char {n : Nat} (h : n < 64) : b64Index (b64Char n) = some n := by
  interval_cases n <;> decide

theorem b64Char_ne_pad {n : Nat} (h : n < 64) : b64Char n ≠ '=' := by
  interval_cases n <;> decide

/-- Base64-encode a byte list (with `=` padding). -/
def base64Encode : List Nat → List Char
  | [] => []
  | [a] => [b64Char (a / 4), b64Char (a % 4 * 16), '=', '=']
  | [a, b] => [b64Char (a / 4), b64Char (a % 4 * 16 + b / 16), b64Char (b % 16 * 4), '=']
  | a :: b :: c :: rest =>
    b64Char (a / 4) :: b64Char (a % 4 * 16 + b / 16) ::
    b64Char (b % 16 * 4 + c / 64) :: b64Char (c % 64) :: base64Encode rest

/-- Base64-decode to a byte list; `none` on malformed input. -/
def base64Decode : List Char → Option (List Nat)
  | [] => some []
  | c0 :: c1 :: c2 :: c3 :: rest =>
    if c2 = '=' ∧ c3 = '=' ∧ rest = [] then do
      let s0 ← b64Index c0
      let s1 ← b64Index c1
      pure [s0 * 4 + s1 / 16]
    else if c3 = '=' ∧ rest = [] then do
      let s0 ← b64Index c0
      let s1 ← b64Index c1
      let s2 ← b64Index c2
      pure [s0 * 4 + s1 / 16, s1 % 16 * 16 + s2 / 4]
    else do
      let s0 ← b64Index c0
      let s1 ← b64Index c1
      let s2 ← b64Index c2
      let s3 ← b64Index c3
      let tail ← base64Decode rest
      pure ((s0 * 4 + s1 / 16) :: (s1 % 16 * 16 + s2 / 4) :: (s2 % 4 * 64 + s3) :: tail)
  | _ => none

/-- A byte list: all entries below 256. -/
def IsBytes (bs : List Nat) : Prop := ∀ x ∈ bs, x < 256

theorem base64_roundtrip : ∀ bs : List Nat, IsBytes bs →
    base64Decode (base64Encode bs) = some bs := by
  intro bs
  induction bs using base64Encode.induct with
  | case1 => intro _; rfl
  | case2 a =>
    intro hb
    have ha : a < 256 := hb a (by simp)
    have h0 : a / 4 < 64 := by omega
    have h1 : a % 4 * 16 < 64 := by omega
    have hcond : ('=' : Char) = '=' ∧ ('=' : Char) = '=' ∧ ([] : List Char) = [] :=
      ⟨rfl, rfl, rfl⟩
    rw [show base64Encode [a] = [b64Char (a / 4), b64Char (a % 4 * 16), '=', '='] from rfl]
    rw [base64Decode, if_pos hcond]
    simp only [b64Index_b64Char h0, b64Index_b64Char h1, Option.bind_eq_bind,
      Option.some_bind]
    have e : a / 4 * 4 + a % 4 * 16 / 16 = a := by omega
    rw [e]
    rfl
  | case3 a b =>
    intro hb
    have ha : a < 256 := hb a (by simp)
    have hbb : b < 256 := hb b (by simp)
    have h0 : a / 4 < 64 := by omega
    have h1 : a % 4 * 16 + b / 16 < 64 := by omega
    have h2 : b % 16 * 4 < 64 := by omega
    have hne : ¬(b64Char (b % 16 * 4) = '=' ∧ ('=' : Char) = '=' ∧ ([] : List Char) = []) :=
      fun h => b64Char_ne_pad h2 h.1
    have hcond : ('=' : Char) = '=' ∧ ([] : List Char) = [] := ⟨rfl, rfl⟩
    rw [show base64Encode [a, b] =
      [b64Char (a / 4), b64Char (a % 4 * 16 + b / 16), b64Char (b % 16 * 4), '='] from rfl]
    rw [base64Decode, if_neg hne, if_pos hcond]
    simp only [b64Index_b64Char h0, b64Index_b64Char h1, b64Index_b64Char h2,
      Option.bind_eq_bind, Option.some_bind]
    have e1 : a / 4 * 4 + (a % 4 * 16 + b / 16) / 16 = a := by omega
    have e2 : (a % 4 * 16 + b / 16) % 16 * 16 + b % 16 * 4 / 4 = b := by omega
    rw [e1, e2]
    rfl
  | case4 a b c rest ih =>
    intro hb
    have ha : a < 256 := hb a (by simp)
    have hbb : b < 256 := hb b (by simp)
    have hc : c < 256 := hb c (by simp)
    have hrest : IsBytes rest := fun x hx => hb x (by simp [hx])
    have h0 : a / 4 < 64 := by omega
    have h1 : a % 4 * 16 + b / 16 < 64 := by omega
    have h2 : b % 16 * 4 + c / 64 < 64 := by omega
    have h3 : c % 64 < 64 := by omega
    have hdec := ih hrest
    have hne1 : ¬(b64Char (b % 16 * 4 + c / 64) = '=' ∧ b64Char (c % 64) = '=' ∧
        base64Encode rest = []) := fun h => b64Char_ne_pad h2 h.1
    have hne2 : ¬(b64Char (c % 64) = '=' ∧ base64Encode rest = []) :=
      fun h => b64Char_ne_pad h3 h.1
    rw [show base64Encode (a :: b :: c :: rest) =
      b64Char (a / 4) :: b64Char (a % 4 * 16 + b / 16) ::
      b64Char (b % 16 * 4 + c / 64) :: b64Char (c % 64) :: base64Encode rest from rfl]
    rw [base64Decode, if_neg hne1, if_neg hne2]
    simp only [b64Index_b64Char h0, b64Index_b64Char h1, b64Index_b64Char h2,
      b64Index_b64Char h3, Option.bind_eq_bind, Option.some_bind, hdec, Option.pure_def,
      Option.some.injEq, List.cons.injEq]
    exact ⟨by omega, by omega, by omega, trivial⟩

/-! ### UTF-8 (`TextEncoder` / `TextDecoder`) -/

/-- UTF-8 encoding of one unicode scalar value. -/
def utf8EncodeChar (c : Char) : List Nat :=
  if c.toNat < 0x80 then [c.toNat]
  else if c.toNat < 0x800 then [0xC0 + c.toNat / 64, 0x80 + c.toNat % 64]
  else if c.toNat < 0x10000 then
    [0xE0 + c.toNat / 4096, 0x80 + c.toNat / 64 % 64, 0x80 + c.toNat % 64]
  else
    [0xF0 + c.toNat / 262144, 0x80 + c.toNat / 4096 % 64, 0x80 + c.toNat / 64 % 64,
      0x80 + c.toNat % 64]

/-- `new TextEncoder().encode(s)`. -/
def utf8Encode (s : List Char) : List Nat := s.flatMap utf8EncodeChar

/-- `new TextDecoder().decode(bytes)`, written with an explicit fuel argument
(one unit per decoded character) so that the recursion is structural; `none`
on malformed sequences. -/
def utf8DecodeGo : Nat → List Nat → Option (List Char)
  | _, [] => some []
  | 0, _ :: _ => none
  | fuel + 1, b0 :: rest =>
    if b0 < 0x80 then (utf8DecodeGo fuel rest).map (Char.ofNat b0 :: ·)
    else if b0 < 0xC0 then none
    else if b0 < 0xE0 then
      match rest with
      | b1 :: rest1 =>
        if 0x80 ≤ b1 ∧ b1 < 0xC0 then
          (utf8DecodeGo fuel rest1).map (Char.ofNat ((b0 - 0xC0) * 64 + (b1 - 0x80)) :: ·)
        else none
      | [] => none
    else if b0 < 0xF0 then
      match rest with
      | b1 :: b2 :: rest2 =>
        if (0x80 ≤ b1 ∧ b1 < 0xC0) ∧ (0x80 ≤ b2 ∧ b2 < 0xC0) then
          (utf8DecodeGo fuel rest2).map
            (Char.ofNat ((b0 - 0xE0) * 4096 + (b1 - 0x80) * 64 + (b2 - 0x80)) :: ·)
        else none
      | _ => none
    else
      match rest with
      | b1 :: b2 :: b3 :: rest3 =>
        if (0x80 ≤ b1 ∧ b1 < 0xC0) ∧ (0x80 ≤ b2 ∧ b2 < 0xC0) ∧ (0x80 ≤ b3 ∧ b3 < 0xC0) then
          (utf8DecodeGo fuel rest3).map
            (Char.ofNat ((b0 - 0xF0) * 262144 + (b1 - 0x80) * 4096 +
              (b2 - 0x80) * 64 + (b3 - 0x80)) :: ·)
        else none
      | _ => none

/-- `new TextDecoder().decode(bytes)`: every decoded character consumes at
least one byte, so the byte count bounds the fuel. -/
def utf8Decode (bytes : List Nat) : Option (List Char) :=
  utf8DecodeGo bytes.length bytes

theorem char_toNat_lt (c : Char) : c.toNat < 1114112 := by
  have hv := c.valid
  have h : c.toNat = c.val.toNat := rfl
  rw [h]
  rcases hv with h' | h'
  · omega
  · omega

theorem utf8EncodeChar_bytes (c : Char) : IsBytes (utf8EncodeChar c) := by
  have hlt := char_toNat_lt c
  intro x hx
  unfold utf8EncodeChar at hx
  by_cases h1 : c.toNat < 0x80
  · simp [h1] at hx; omega
  · by_cases h2 : c.toNat < 0x800
    · simp [h1, h2] at hx
      rcases hx with h | h <;> omega
    · by_cases h3 : c.toNat < 0x10000
      · simp [h1, h2, h3] at hx
        rcases hx with h | h | h <;> omega
      · simp [h1, h2, h3] at hx
        rcases hx with h | h | h | h <;> omega

theorem utf8DecodeGo_nil (fuel : Nat) : utf8DecodeGo fuel [] = some [] := by
  cases fuel <;> rfl

theorem utf8DecodeGo_encodeChar (c : Char) (fuel : Nat) (rest : List Nat) :
    utf8DecodeGo (fuel + 1) (utf8EncodeChar c ++ rest) =
      (utf8DecodeGo fuel rest).map (c :: ·) := by
  have hlt := char_toNat_lt c
  by_cases h1 : c.toNat < 0x80
  · rw [show utf8EncodeChar c = [c.toNat] from by
      unfold utf8EncodeChar; rw [if_pos h1]]
    rw [show ([c.toNat] ++ rest) = c.toNat :: rest from rfl]
    rw [utf8DecodeGo.eq_def]
    simp only []
    rw [if_pos h1, Char.ofNat_toNat]
  · by_cases h2 : c.toNat < 0x800
    · rw [show utf8EncodeChar c = [0xC0 + c.toNat / 64, 0x80 + c.toNat % 64] from by
        unfold utf8EncodeChar; rw [if_neg h1, if_pos h2]]
      rw [show ([0xC0 + c.toNat / 64, 0x80 + c.toNat % 64] ++ rest) =
        (0xC0 + c.toNat / 64) :: (0x80 + c.toNat % 64) :: rest from rfl]
      rw [utf8DecodeGo.eq_def]
      simp only []
      rw [if_neg (by omega), if_neg (by omega), if_pos (by omega)]
      rw [if_pos (by constructor <;> omega)]
      have he : (0xC0 + c.toNat / 64 - 0xC0) * 64 + (0x80 + c.toNat % 64 - 0x80) =
          c.toNat := by omega
      rw [he, Char.ofNat_toNat]
    · by_cases h3 : c.toNat < 0x10000
      · rw [show utf8EncodeChar c =
          [0xE0 + c.toNat / 4096, 0x80 + c.toNat / 64 % 64, 0x80 + c.toNat % 64] from by
          unfold utf8EncodeChar; rw [if_neg h1, if_neg h2, if_pos h3]]
        rw [show ([0xE0 + c.toNat / 4096, 0x80 + c.toNat / 64 % 64, 0x80 + c.toNat % 64] ++
          rest) = (0xE0 + c.toNat / 4096) :: (0x80 + c.toNat / 64 % 64) ::
          (0x80 + c.toNat % 64) :: rest from rfl]
        rw [utf8DecodeGo.eq_def]
        simp only []
        rw [if_neg (by omega), if_neg (by omega), if_neg (by omega), if_pos (by omega)]
        rw [if_pos (by refine ⟨⟨by omega, by omega⟩, by omega, by omega⟩)]
        have he : (0xE0 + c.toNat / 4096 - 0xE0) * 4096 +
            (0x80 + c.toNat / 64 % 64 - 0x80) * 64 + (0x80 + c.toNat % 64 - 0x80) =
            c.toNat := by omega
        rw [he, Char.ofNat_toNat]
      · rw [show utf8EncodeChar c =
          [0xF0 + c.toNat / 262144, 0x80 + c.toNat / 4096 % 64, 0x80 + c.toNat / 64 % 64,
            0x80 + c.toNat % 64] from by
          unfold utf8EncodeChar; rw [if_neg h1, if_neg h2, if_neg h3]]
        rw [show ([0xF0 + c.toNat / 262144, 0x80 + c.toNat / 4096 % 64,
          0x80 + c.toNat / 64 % 64, 0x80 + c.toNat % 64] ++ rest) =
          (0xF0 + c.toNat / 262144) :: (0x80 + c.toNat / 4096 % 64) ::
          (0x80 + c.toNat / 64 % 64) :: (0x80 + c.toNat % 64) :: rest from rfl]
        rw [utf8DecodeGo.eq_def]
        simp only []
        rw [if_neg (by omega), if_neg (by omega), if_neg (by omega), if_neg (by omega)]
        rw [if_pos
          (by refine ⟨⟨by omega, by omega⟩, ⟨by omega, by omega⟩, by omega, by omega⟩)]
        have he : (0xF0 + c.toNat / 262144 - 0xF0) * 262144 +
            (0x80 + c.toNat / 4096 % 64 - 0x80) * 4096 +
            (0x80 + c.toNat / 64 % 64 - 0x80) * 64 + (0x80 + c.toNat % 64 - 0x80) =
            c.toNat := by omega
        rw [he, Char.ofNat_toNat]

theorem utf8DecodeGo_encode (s : List Char) : ∀ fuel rest, s.length ≤ fuel →
    utf8DecodeGo fuel (utf8Encode s ++ rest) =
      (utf8DecodeGo (fuel - s.length) rest).map (s ++ ·) := by
  induction s with
  | nil =>
    intro fuel rest _
    simp [utf8Encode]
  | cons c cs ih =>
    intro fuel rest hfuel
    cases fuel with
    | zero => simp at hfuel
    | succ f =>
      rw [show utf8Encode (c :: cs) ++ rest = utf8EncodeChar c ++ (utf8Encode cs ++ rest)
        from by simp [utf8Encode]]
      rw [utf8DecodeGo_encodeChar]
      rw [ih f rest (by simpa using hfuel)]
      rw [show (f + 1) - (c :: cs).length = f - cs.length from by simp]
      rw [Option.map_map]
      rfl

theorem utf8EncodeChar_length_pos (c : Char) : 1 ≤ (utf8EncodeChar c).length := by
  unfold utf8EncodeChar
  by_cases h1 : c.toNat < 0x80
  · simp [h1]
  · by_cases h2 : c.toNat < 0x800
    · simp [h1, h2]
    · by_cases h3 : c.toNat < 0x10000
      · simp [h1, h2, h3]
      · simp [h1, h2, h3]

theorem utf8Encode_length_ge (s : List Char) : s.length ≤ (utf8Encode s).length := by
  induction s with
  | nil => simp [utf8Encode]
  | cons c cs ih =>
    have h := utf8EncodeChar_length_pos c
    rw [show utf8Encode (c :: cs) = utf8EncodeChar c ++ utf8Encode cs from by
      simp [utf8Encode]]
    simp only [List.length_append, List.length_cons]
    omega

theorem utf8_roundtrip (s : List Char) : utf8Decode (utf8Encode s) = some s := by
  unfold utf8Decode
  have h := utf8DecodeGo_encode s (utf8Encode s).length [] (utf8Encode_length_ge s)
  rw [List.append_nil] at h
  rw [h, utf8DecodeGo_nil]
  simp

theorem utf8Encode_bytes (s : List Char) : IsBytes (utf8Encode s) := by
  intro x hx
  unfold utf8Encode at hx
  rw [List.mem_flatMap] at hx
  obtain ⟨c, _, hc⟩ := hx
  exact utf8EncodeChar_bytes c x hc

/-! ### JSON (`JSON.stringify` / `JSON.parse`)

JSON values as passed to the application-record cipher.  Numbers are modelled
as exact integers: the record payloads serialise strings, booleans and
integral vitals; fractional doubles are outside the model.  `JSON.stringify`
emits no whitespace, so the parser models the whitespace-free grammar it is
fed by `decryptObject`. -/

inductive Json where
  | null
  | bool (b : Bool)
  | num (n : Int)
  | str (s : List Char)
  | arr (elems : List Json)
  | obj (fields : List (String × Json))

/-- Lowercase hexadecimal digit, as emitted by `JSON.stringify` in `\u00XX`
escapes. -/
def hexDigit (n : Nat) : Char := "0123456789abcdef".data.getD n '0'

/-- `JSON.stringify` escaping of one string character. -/
def escChar (c : Char) : List Char :=
  if c = '"' then ['\\', '"']
  else if c = '\\' then ['\\', '\\']
  else if c.toNat = 8 then ['\\', 'b']
  else if c.toNat = 12 then ['\\', 'f']
  else if c.toNat = 10 then ['\\', 'n']
  else if c.toNat = 13 then ['\\', 'r']
  else if c.toNat = 9 then ['\\', 't']
  else if c.toNat < 0x20 then
    ['\\', 'u', '0', '0', hexDigit (c.toNat / 16), hexDigit (c.toNat % 16)]
  else [c]

/-- `JSON.stringify` of a string value. -/
def serializeString (s : List Char) : List Char :=
  '"' :: s.flatMap escChar ++ ['"']

/-- Decimal digits of a natural number (fuel-structural; `fuel = n` always
suffices since `n / 10 < n` for `n ≥ 10`). -/
def natToCharsGo : Nat → Nat → List Char
  | 0, n => [Char.ofNat (48 + n % 10)]
  | fuel + 1, n =>
    if n < 10 then [Char.ofNat (48 + n)]
    else natToCharsGo fuel (n / 10) ++ [Char.ofNat (48 + n % 10)]

/-- Decimal digits of a natural number. -/
def natToChars (n : Nat) : List Char := natToCharsGo n n

/-- `JSON.stringify` of an (integral) number. -/
def intToChars (n : Int) : List Char :=
  if n < 0 then '-' :: natToChars n.natAbs else natToChars n.toNat

mutual

/-- `JSON.stringify` (whitespace-free, as in the source). -/
def serialize : Json → List Char
  | Json.null => ['n', 'u', 'l', 'l']
  | Json.bool true => ['t', 'r', 'u', 'e']
  | Json.bool false => ['f', 'a', 'l', 's', 'e']
  | Json.num n => intToChars n
  | Json.str s => serializeString s
  | Json.arr es => '[' :: serializeElems es ++ [']']
  | Json.obj fs => '{' :: serializeMembers fs ++ ['}']

/-- Comma-separated serialization of array elements. -/
def serializeElems : List Json → List Char
  | [] => []
  | [e] => serialize e
  | e :: es => serialize e ++ ',' :: serializeElems es

/-- Comma-separated serialization of object members. -/
def serializeMembers : List (String × Json) → List Char
  | [] => []
  | [(k, v)] => serializeString k.data ++ ':' :: serialize v
  | (k, v) :: fs =>
    serializeString k.data ++ ':' :: serialize v ++ ',' :: serializeMembers fs

end

/-- Hexadecimal digit value accepted in `\uXXXX` escapes. -/
def hexVal (c : Char) : Option Nat :=
  if 48 ≤ c.toNat ∧ c.toNat ≤ 57 then some (c.toNat - 48)
  else if 97 ≤ c.toNat ∧ c.toNat ≤ 102 then some (c.toNat - 87)
  else if 65 ≤ c.toNat ∧ c.toNat ≤ 70 then some (c.toNat - 55)
  else none

/-- Body of a JSON string literal after its opening quote; returns the
unescaped content and the input following the closing quote. -/
def parseStringBody : Nat → List Char → Option (List Char × List Char)
  | 0, _ => none
  | _ + 1, [] => none
  | fuel + 1, c :: rest =>
    if c = '"' then some ([], rest)
    else if c = '\\' then
      match rest with
      | [] => none
      | e :: rest1 =>
        if e = '"' then (parseStringBody fuel rest1).map (fun p => ('"' :: p.1, p.2))
        else if e = '\\' then (parseStringBody fuel rest1).map (fun p => ('\\' :: p.1, p.2))
        else if e = '/' then (parseStringBody fuel rest1).map (fun p => ('/' :: p.1, p.2))
        else if e = 'b' then
          (parseStringBody fuel rest1).map (fun p => (Char.ofNat 8 :: p.1, p.2))
        else if e = 'f' then
          (parseStringBody fuel rest1).map (fun p => (Char.ofNat 12 :: p.1, p.2))
        else if e = 'n' then
          (parseStringBody fuel rest1).map (fun p => (Char.ofNat 10 :: p.1, p.2))
        else if e = 'r' then
          (parseStringBody fuel rest1).map (fun p => (Char.ofNat 13 :: p.1, p.2))
        else if e = 't' then
          (parseStringBody fuel rest1).map (fun p => (Char.ofNat 9 :: p.1, p.2))
        else if e = 'u' then
          match rest1 with
          | h1 :: h2 :: h3 :: h4 :: rest2 =>
            (hexVal h1).bind fun d1 =>
            (hexVal h2).bind fun d2 =>
            (hexVal h3).bind fun d3 =>
            (hexVal h4).bind fun d4 =>
            let n := d1 * 4096 + d2 * 256 + d3 * 16 + d4
            if n < 0xD800 ∨ (0xE000 ≤ n ∧ n < 0x110000) then
              (parseStringBody fuel rest2).map (fun p => (Char.ofNat n :: p.1, p.2))
            else none
          | _ => none
        else none
    else (parseStringBody fuel rest).map (fun p => (c :: p.1, p.2))

/-- Decimal digit test (`0`–`9`). -/
def isDigitChar (c : Char) : Bool := 47 < c.toNat && c.toNat < 58

/-- Accumulate a digit run into a natural number. -/
def digitsToNat (ds : List Char) : Nat :=
  ds.foldl (fun acc c => acc * 10 + (c.toNat - 48)) 0

/-- Parse a non-empty run of decimal digits. -/
def parseDigits (input : List Char) : Option (Nat × List Char) :=
  match input.takeWhile isDigitChar with
  | [] => none
  | ds => some (digitsToNat ds, input.dropWhile isDigitChar)

mutual

/-- `JSON.parse` on the whitespace-free grammar emitted by `JSON.stringify`
(numbers restricted to integers), fuel-structural. -/
def parseValue : Nat → List Char → Option (Json × List Char)
  | 0, _ => none
  | _ + 1, [] => none
  | fuel + 1, c :: rest =>
    if c = 'n' then
      match rest with
      | c1 :: c2 :: c3 :: r =>
        if c1 = 'u' ∧ c2 = 'l' ∧ c3 = 'l' then some (.null, r) else none
      | _ => none
    else if c = 't' then
      match rest with
      | c1 :: c2 :: c3 :: r =>
        if c1 = 'r' ∧ c2 = 'u' ∧ c3 = 'e' then some (.bool true, r) else none
      | _ => none
    else if c = 'f' then
      match rest with
      | c1 :: c2 :: c3 :: c4 :: r =>
        if c1 = 'a' ∧ c2 = 'l' ∧ c3 = 's' ∧ c4 = 'e' then some (.bool false, r) else none
      | _ => none
    else if c = '"' then (parseStringBody fuel rest).map (fun p => (.str p.1, p.2))
    else if c = '-' then (parseDigits rest).map (fun p => (.num (-(p.1 : Int)), p.2))
    else if isDigitChar c then
      (parseDigits (c :: rest)).map (fun p => (.num (p.1 : Int), p.2))
    else if c = '[' then
      match rest with
      | [] => none
      | c2 :: r =>
        if c2 = ']' then some (.arr [], r)
        else (parseElems fuel (c2 :: r)).map (fun p => (.arr p.1, p.2))
    else if c = '{' then
      match rest with
      | [] => none
      | c2 :: r =>
        if c2 = '}' then some (.obj [], r)
        else (parseMembers fuel (c2 :: r)).map (fun p => (.obj p.1, p.2))
    else none

/-- Parse `value (, value)* ]` (a non-empty array tail). -/
def parseElems : Nat → List Char → Option (List Json × List Char)
  | 0, _ => none
  | fuel + 1, input =>
    match parseValue fuel input with
    | some (v, c1 :: r2) =>
      if c1 = ',' then (parseElems fuel r2).map (fun p => (v :: p.1, p.2))
      else if c1 = ']' then some ([v], r2)
      else none
    | _ => none

/-- Parse `"key": value (, "key": value)* }` (a non-empty object tail). -/
def parseMembers : Nat → List Char → Option (List (String × Json) × List Char)
  | 0, _ => none
  | fuel + 1, input =>
    match input with
    | [] => none
    | c0 :: r0 =>
      if c0 = '"' then
        match parseStringBody fuel r0 with
        | some (key, c1 :: r2) =>
          if c1 = ':' then
            match parseValue fuel r2 with
            | some (v, c2 :: r4) =>
              if c2 = ',' then
                (parseMembers fuel r4).map (fun p => ((⟨key⟩, v) :: p.1, p.2))
              else if c2 = '}' then some ([(⟨key⟩, v)], r4)
              else none
            | _ => none
          else none
        | _ => none
      else none

end

/-- `JSON.parse` of a complete document: the whole input must be consumed.
The fuel `2 * length + 2` dominates the recursion (at most two fuel units
are spent per consumed character). -/
def jsonParse (s : List Char) : Option Json :=
  match parseValue (2 * s.length + 2) s with
  | some (v, []) => some v
  | _ => none

theorem char_toNat_ofNat {n : Nat} (h : n < 55296) : (Char.ofNat n).toNat = n := by
  unfold Char.ofNat
  rw [dif_pos (Or.inl h)]
  rfl

theorem hexVal_hexDigit {n : Nat} (h : n < 16) : hexVal (hexDigit n) = some n := by
  interval_cases n <;> decide

theorem char_ofNat_eq_of_toNat {c : Char} {n : Nat} (h : c.toNat = n) :
    Char.ofNat n = c := by
  have := Char.ofNat_toNat c
  rw [h] at this
  exact this

theorem parseStringBody_roundtrip (s : List Char) : ∀ fuel rest, s.length < fuel →
    parseStringBody fuel (s.flatMap escChar ++ '"' :: rest) = some (s, rest) := by
  induction s with
  | nil =>
    intro fuel rest h
    cases fuel with
    | zero => omega
    | succ f =>
      rw [show ([] : List Char).flatMap escChar ++ '"' :: rest = '"' :: rest from rfl]
      rw [parseStringBody.eq_def]
      simp
  | cons c cs ih =>
    intro fuel rest h
    cases fuel with
    | zero => simp at h
    | succ f =>
      have hcs : cs.length < f := by simp at h; omega
      have ihf := ih f rest hcs
      have hflat : (c :: cs).flatMap escChar ++ '"' :: rest =
          escChar c ++ (cs.flatMap escChar ++ '"' :: rest) := by
        simp [List.flatMap_cons, List.append_assoc]
      rw [hflat]
      by_cases h1 : c = '"'
      · rw [show escChar c = ['\\', '"'] from by unfold escChar; rw [if_pos h1]]
        rw [show (['\\', '"'] ++ (cs.flatMap escChar ++ '"' :: rest)) =
          '\\' :: '"' :: (cs.flatMap escChar ++ '"' :: rest) from rfl]
        rw [parseStringBody.eq_def]
        simp [ihf, h1]
      · by_cases h2 : c = '\\'
        · rw [show escChar c = ['\\', '\\'] from by
            unfold escChar; rw [if_neg h1, if_pos h2]]
          rw [show (['\\', '\\'] ++ (cs.flatMap escChar ++ '"' :: rest)) =
            '\\' :: '\\' :: (cs.flatMap escChar ++ '"' :: rest) from rfl]
          rw [parseStringBody.eq_def]
          simp [ihf, h2]
        · by_cases h3 : c.toNat = 8
          · rw [show escChar c = ['\\', 'b'] from by
              unfold escChar; rw [if_neg h1, if_neg h2, if_pos h3]]
            rw [show (['\\', 'b'] ++ (cs.flatMap escChar ++ '"' :: rest)) =
              '\\' :: 'b' :: (cs.flatMap escChar ++ '"' :: rest) from rfl]
            rw [parseStringBody.eq_def]
            simp [ihf]
            exact char_ofNat_eq_of_toNat h3
          · by_cases h4 : c.toNat = 12
            · rw [show escChar c = ['\\', 'f'] from by
                unfold escChar; rw [if_neg h1, if_neg h2, if_neg h3, if_pos h4]]
              rw [show (['\\', 'f'] ++ (cs.flatMap escChar ++ '"' :: rest)) =
                '\\' :: 'f' :: (cs.flatMap escChar ++ '"' :: rest) from rfl]
              rw [parseStringBody.eq_def]
              simp [ihf]
              exact char_ofNat_eq_of_toNat h4
            · by_cases h5 : c.toNat = 10
              · rw [show escChar c = ['\\', 'n'] from by
                  unfold escChar; rw [if_neg h1, if_neg h2, if_neg h3, if_neg h4,
                    if_pos h5]]
                rw [show (['\\', 'n'] ++ (cs.flatMap escChar ++ '"' :: rest)) =
                  '\\' :: 'n' :: (cs.flatMap escChar ++ '"' :: rest) from rfl]
                rw [parseStringBody.eq_def]
                simp [ihf]
                exact char_ofNat_eq_of_toNat h5
              · by_cases h6 : c.toNat = 13
                · rw [show escChar c = ['\\', 'r'] from by
                    unfold escChar; rw [if_neg h1, if_neg h2, if_neg h3, if_neg h4,
                      if_neg h5, if_pos h6]]
                  rw [show (['\\', 'r'] ++ (cs.flatMap escChar ++ '"' :: rest)) =
                    '\\' :: 'r' :: (cs.flatMap escChar ++ '"' :: rest) from rfl]
                  rw [parseStringBody.eq_def]
                  simp [ihf]
                  exact char_ofNat_eq_of_toNat h6
                · by_cases h7 : c.toNat = 9
                  · rw [show escChar c = ['\\', 't'] from by
                      unfold escChar; rw [if_neg h1, if_neg h2, if_neg h3, if_neg h4,
                        if_neg h5, if_neg h6, if_pos h7]]
                    rw [show (['\\', 't'] ++ (cs.flatMap escChar ++ '"' :: rest)) =
                      '\\' :: 't' :: (cs.flatMap escChar ++ '"' :: rest) from rfl]
                    rw [parseStringBody.eq_def]
                    simp [ihf]
                    exact char_ofNat_eq_of_toNat h7
                  · by_cases h8 : c.toNat < 32
                    · rw [show escChar c = ['\\', 'u', '0', '0',
                        hexDigit (c.toNat / 16), hexDigit (c.toNat % 16)] from by
                        unfold escChar; rw [if_neg h1, if_neg h2, if_neg h3, if_neg h4,
                          if_neg h5, if_neg h6, if_neg h7, if_pos h8]]
                      rw [show (['\\', 'u', '0', '0', hexDigit (c.toNat / 16),
                          hexDigit (c.toNat % 16)] ++
                          (cs.flatMap escChar ++ '"' :: rest)) =
                        '\\' :: 'u' :: '0' :: '0' :: hexDigit (c.toNat / 16) ::
                          hexDigit (c.toNat % 16) ::
                          (cs.flatMap escChar ++ '"' :: rest) from rfl]
                      rw [parseStringBody.eq_def]
                      have e2 : hexVal (hexDigit (c.toNat / 16)) = some (c.toNat / 16) :=
                        hexVal_hexDigit (by omega)
                      have e3 : hexVal (hexDigit (c.toNat % 16)) = some (c.toNat % 16) :=
                        hexVal_hexDigit (by omega)
                      have harith : 0 * 4096 + 0 * 256 + c.toNat / 16 * 16 +
                          c.toNat % 16 = c.toNat := by omega
                      have hvalid : c.toNat < 55296 := by omega
                      simp [e2, e3, show hexVal '0' = some 0 from by decide, ihf]
                      constructor
                      · exact Or.inl (by omega)
                      · rw [show c.toNat / 16 * 16 + c.toNat % 16 = c.toNat from by omega,
                          Char.ofNat_toNat]
                    · rw [show escChar c = [c] from by
                        unfold escChar; rw [if_neg h1, if_neg h2, if_neg h3, if_neg h4,
                          if_neg h5, if_neg h6, if_neg h7, if_neg h8]]
                      rw [show ([c] ++ (cs.flatMap escChar ++ '"' :: rest)) =
                        c :: (cs.flatMap escChar ++ '"' :: rest) from rfl]
                      rw [parseStringBody.eq_def]
                      simp [ihf, h1, h2]

theorem digitsToNat_append_one (xs : List Char) (d : Char) :
    digitsToNat (xs ++ [d]) = digitsToNat xs * 10 + (d.toNat - 48) := by
  simp [digitsToNat, List.foldl_append]

theorem natToCharsGo_spec (n : Nat) : ∀ fuel, n ≤ fuel →
    (∀ c ∈ natToCharsGo fuel n, isDigitChar c = true) ∧
    digitsToNat (natToCharsGo fuel n) = n ∧ natToCharsGo fuel n ≠ [] := by
  induction n using Nat.strong_induction_on with
  | _ n ih =>
    intro fuel hfuel
    cases fuel with
    | zero =>
      have hn : n = 0 := by omega
      subst hn
      refine ⟨?_, by simp [natToCharsGo, digitsToNat], by simp [natToCharsGo]⟩
      intro c hc
      simp [natToCharsGo] at hc
      subst hc
      decide
    | succ f =>
      by_cases h10 : n < 10
      · rw [show natToCharsGo (f + 1) n = [Char.ofNat (48 + n)] from by
          rw [natToCharsGo]; rw [if_pos h10]]
        have htn : (Char.ofNat (48 + n)).toNat = 48 + n :=
          char_toNat_ofNat (by omega)
        refine ⟨?_, ?_, by simp⟩
        · intro c hc
          simp at hc
          subst hc
          simp [isDigitChar, htn]
          omega
        · simp [digitsToNat, htn]
      · rw [show natToCharsGo (f + 1) n =
          natToCharsGo f (n / 10) ++ [Char.ofNat (48 + n % 10)] from by
          rw [natToCharsGo]; rw [if_neg h10]]
        have hdiv : n / 10 < n := by omega
        have hfl : n / 10 ≤ f := by omega
        obtain ⟨hd1, hd2, _⟩ := ih (n / 10) hdiv f hfl
        have htn : (Char.ofNat (48 + n % 10)).toNat = 48 + n % 10 :=
          char_toNat_ofNat (by omega)
        refine ⟨?_, ?_, by simp⟩
        · intro c hc
          rw [List.mem_append] at hc
          rcases hc with hc | hc
          · exact hd1 c hc
          · simp at hc
            subst hc
            simp [isDigitChar, htn]
            omega
        · rw [digitsToNat_append_one, hd2, htn]
          omega

theorem natToChars_spec (n : Nat) :
    (∀ c ∈ natToChars n, isDigitChar c = true) ∧
    digitsToNat (natToChars n) = n ∧ natToChars n ≠ [] :=
  natToCharsGo_spec n n le_rfl

theorem takeWhile_append_eq {p : Char → Bool} {xs rest : List Char}
    (hxs : ∀ c ∈ xs, p c = true)
    (hrest : ∀ c, rest.head? = some c → p c = false) :
    (xs ++ rest).takeWhile p = xs ∧ (xs ++ rest).dropWhile p = rest := by
  induction xs with
  | nil =>
    simp only [List.nil_append]
    cases rest with
    | nil => simp
    | cons r rs =>
      have := hrest r rfl
      simp [List.takeWhile_cons, List.dropWhile_cons, this]
  | cons x xs ih =>
    have hx := hxs x (by simp)
    have ihr := ih (fun c hc => hxs c (by simp [hc]))
    simp [List.takeWhile_cons, List.dropWhile_cons, hx, ihr.1, ihr.2]

theorem parseDigits_natToChars (n : Nat) (rest : List Char)
    (hrest : ∀ c, rest.head? = some c → isDigitChar c = false) :
    parseDigits (natToChars n ++ rest) = some (n, rest) := by
  obtain ⟨hd, hv, hne⟩ := natToChars_spec n
  obtain ⟨ht, hdrp⟩ := takeWhile_append_eq hd hrest
  unfold parseDigits
  rw [ht, hdrp]
  cases hcase : natToChars n with
  | nil => exact absurd hcase hne
  | cons a as =>
    rw [hcase] at hv
    simp [← hv]

theorem isDigit_ne {a : Char} (ha : isDigitChar a = true) :
    a ≠ 'n' ∧ a ≠ 't' ∧ a ≠ 'f' ∧ a ≠ '"' ∧ a ≠ '-' ∧ a ≠ '[' ∧ a ≠ '{' ∧
    a ≠ ']' ∧ a ≠ '}' ∧ a ≠ ',' ∧ a ≠ ':' := by
  refine ⟨?_, ?_, ?_, ?_, ?_, ?_, ?_, ?_, ?_, ?_, ?_⟩ <;>
    (intro h; subst h; exact absurd ha (by decide))

mutual

/-- Parser fuel bound for one JSON value. -/
def jfuel : Json → Nat
  | .null => 1
  | .bool _ => 1
  | .num _ => 1
  | .str s => s.length + 2
  | .arr es => jfuelElems es + 2
  | .obj fs => jfuelMembers fs + 2

/-- Parser fuel bound for an array tail. -/
def jfuelElems : List Json → Nat
  | [] => 0
  | e :: es => jfuel e + jfuelElems es + 2

/-- Parser fuel bound for an object tail. -/
def jfuelMembers : List (String × Json) → Nat
  | [] => 0
  | (k, v) :: fs => k.data.length + jfuel v + jfuelMembers fs + 4

end

theorem jfuel_pos (j : Json) : 1 ≤ jfuel j := by
  cases j <;> simp [jfuel]

/-- After a serialized number, the parser must not see another digit (true at
every call site: the next character is `,`, `]`, `}` or end of input). -/
def numGuard : Json → List Char → Prop
  | .num _, rest =>
    match rest with
    | [] => True
    | c :: _ => isDigitChar c = false
  | _, _ => True

theorem numGuard_of_head {j : Json} {c : Char} {cs : List Char}
    (h : isDigitChar c = false) : numGuard j (c :: cs) := by
  cases j <;> simp [numGuard, h]

theorem serializeElems_cons (e : Json) (es : List Json) :
    ∃ t, serializeElems (e :: es) = serialize e ++ t := by
  cases es with
  | nil => exact ⟨[], by rw [show serializeElems [e] = serialize e from rfl]; simp⟩
  | cons e2 es2 => exact ⟨',' :: serializeElems (e2 :: es2), rfl⟩

theorem serialize_head (j : Json) :
    ∃ c cs, serialize j = c :: cs ∧ c ≠ ']' ∧ c ≠ '}' := by
  cases j with
  | null => exact ⟨'n', _, rfl, by decide, by decide⟩
  | bool b =>
    cases b
    · exact ⟨'f', _, rfl, by decide, by decide⟩
    · exact ⟨'t', _, rfl, by decide, by decide⟩
  | num n =>
    by_cases hn : n < 0
    · refine ⟨'-', natToChars n.natAbs, ?_, by decide, by decide⟩
      rw [show serialize (.num n) = intToChars n from rfl]
      unfold intToChars
      rw [if_pos hn]
    · obtain ⟨hd, _, hne⟩ := natToChars_spec n.toNat
      cases hcase : natToChars n.toNat with
      | nil => exact absurd hcase hne
      | cons a as =>
        have ha : isDigitChar a = true := by
          apply hd
          rw [hcase]
          simp
        obtain ⟨_, _, _, _, _, _, _, hne1, hne2, _, _⟩ := isDigit_ne ha
        refine ⟨a, as, ?_, hne1, hne2⟩
        rw [show serialize (.num n) = intToChars n from rfl]
        unfold intToChars
        rw [if_neg hn, hcase]
  | str s => exact ⟨'"', _, rfl, by decide, by decide⟩
  | arr es => exact ⟨'[', _, rfl, by decide, by decide⟩
  | obj fs => exact ⟨'{', _, rfl, by decide, by decide⟩

theorem numGuard_num {n : Int} {rest : List Char} (h : numGuard (.num n) rest) :
    ∀ c, rest.head? = some c → isDigitChar c = false := by
  intro c hc
  cases rest with
  | nil => simp at hc
  | cons r rs =>
    simp at hc
    subst hc
    simpa [numGuard] using h

theorem parse_serialize_mutual : ∀ fuel,
    (∀ j rest, jfuel j ≤ fuel → numGuard j rest →
      parseValue fuel (serialize j ++ rest) = some (j, rest)) ∧
    (∀ es rest, es ≠ [] → jfuelElems es ≤ fuel →
      parseElems fuel (serializeElems es ++ ']' :: rest) = some (es, rest)) ∧
    (∀ fs rest, fs ≠ [] → jfuelMembers fs ≤ fuel →
      parseMembers fuel (serializeMembers fs ++ '}' :: rest) = some (fs, rest)) := by
  intro fuel
  induction fuel with
  | zero =>
    refine ⟨fun j rest hf _ => absurd hf (by have := jfuel_pos j; omega), ?_, ?_⟩
    · intro es rest hne hf
      cases es with
      | nil => exact absurd rfl hne
      | cons e es' => simp [jfuelElems] at hf
    · intro fs rest hne hf
      cases fs with
      | nil => exact absurd rfl hne
      | cons kv fs' =>
        obtain ⟨k, v⟩ := kv
        simp [jfuelMembers] at hf
  | succ f ihAll =>
    obtain ⟨ihV, ihE, ihM⟩ := ihAll
    refine ⟨?_, ?_, ?_⟩
    · intro j rest hfuel hguard
      cases j with
      | null =>
        rw [show serialize Json.null ++ rest = 'n' :: 'u' :: 'l' :: 'l' :: rest from rfl]
        rw [parseValue.eq_def]
        simp
      | bool b =>
        cases b
        · rw [show serialize (Json.bool false) ++ rest =
            'f' :: 'a' :: 'l' :: 's' :: 'e' :: rest from rfl]
          rw [parseValue.eq_def]
          simp
        · rw [show serialize (Json.bool true) ++ rest =
            't' :: 'r' :: 'u' :: 'e' :: rest from rfl]
          rw [parseValue.eq_def]
          simp
      | num n =>
        have hrest := numGuard_num hguard
        by_cases hn : n < 0
        · have hser : serialize (Json.num n) ++ rest =
              '-' :: (natToChars n.natAbs ++ rest) := by
            rw [show serialize (Json.num n) = intToChars n from rfl]
            unfold intToChars
            rw [if_pos hn]
            simp
          rw [hser, parseValue.eq_def]
          have hpd : parseDigits (natToChars n.natAbs ++ rest) =
              some (n.natAbs, rest) := parseDigits_natToChars _ _ hrest
          simp [hpd]
          rw [abs_of_neg hn, neg_neg]
        · obtain ⟨hd, _, hne⟩ := natToChars_spec n.toNat
          cases hcase : natToChars n.toNat with
          | nil => exact absurd hcase hne
          | cons a as =>
            have ha : isDigitChar a = true := by
              apply hd
              rw [hcase]
              simp
            have hser : serialize (Json.num n) ++ rest = a :: (as ++ rest) := by
              rw [show serialize (Json.num n) = intToChars n from rfl]
              unfold intToChars
              rw [if_neg hn, hcase]
              simp
            obtain ⟨hnn, hnt, hnf, hnq, hnm, _, _, _, _, _, _⟩ := isDigit_ne ha
            have hpd : parseDigits (natToChars n.toNat ++ rest) =
                some (n.toNat, rest) := parseDigits_natToChars _ _ hrest
            have hback : a :: (as ++ rest) = natToChars n.toNat ++ rest := by
              rw [hcase]
              simp
            rw [hser, parseValue.eq_def]
            simp only []
            rw [if_neg hnn, if_neg hnt, if_neg hnf, if_neg hnq, if_neg hnm, if_pos ha,
              hback, hpd]
            simp
            omega
      | str s =>
        have hser : serialize (Json.str s) ++ rest =
            '"' :: (s.flatMap escChar ++ '"' :: rest) := by
          rw [show serialize (Json.str s) = serializeString s from rfl]
          unfold serializeString
          simp
        have hps : parseStringBody f (s.flatMap escChar ++ '"' :: rest) =
            some (s, rest) := by
          apply parseStringBody_roundtrip
          simp [jfuel] at hfuel
          omega
        rw [hser, parseValue.eq_def]
        simp [hps]
      | arr es =>
        cases es with
        | nil =>
          rw [show serialize (Json.arr []) ++ rest = '[' :: ']' :: rest from rfl]
          rw [parseValue.eq_def]
          simp
          decide
        | cons e es' =>
          have hser : serialize (Json.arr (e :: es')) ++ rest =
              '[' :: (serializeElems (e :: es') ++ ']' :: rest) := by
            rw [show serialize (Json.arr (e :: es')) =
              '[' :: serializeElems (e :: es') ++ [']'] from rfl]
            simp
          obtain ⟨c0, cs0, hs0, hc0, _⟩ := serialize_head e
          obtain ⟨t, hte⟩ := serializeElems_cons e es'
          have hshape : serializeElems (e :: es') ++ ']' :: rest =
              c0 :: (cs0 ++ (t ++ ']' :: rest)) := by
            rw [hte, hs0]
            simp
          have hE : parseElems f (serializeElems (e :: es') ++ ']' :: rest) =
              some (e :: es', rest) := by
            apply ihE _ _ (by simp)
            simp [jfuel] at hfuel
            omega
          rw [hshape] at hE
          rw [hser, hshape, parseValue.eq_def]
          have hdig : isDigitChar '[' = false := by decide
          simp [hE, hc0, hdig]
      | obj fs =>
        cases fs with
        | nil =>
          rw [show serialize (Json.obj []) ++ rest = '{' :: '}' :: rest from rfl]
          rw [parseValue.eq_def]
          simp
          decide
        | cons kv fs' =>
          obtain ⟨k, v⟩ := kv
          have hser : serialize (Json.obj ((k, v) :: fs')) ++ rest =
              '{' :: (serializeMembers ((k, v) :: fs') ++ '}' :: rest) := by
            rw [show serialize (Json.obj ((k, v) :: fs')) =
              '{' :: serializeMembers ((k, v) :: fs') ++ ['}'] from rfl]
            simp
          have hmem : ∃ t, serializeMembers ((k, v) :: fs') =
              '"' :: (k.data.flatMap escChar ++ ['"']) ++ t := by
            cases fs' with
            | nil =>
              refine ⟨':' :: serialize v, ?_⟩
              rw [show serializeMembers [(k, v)] =
                serializeString k.data ++ ':' :: serialize v from rfl]
              unfold serializeString
              simp
            | cons kv2 fs2 =>
              refine ⟨':' :: serialize v ++ ',' :: serializeMembers (kv2 :: fs2), ?_⟩
              rw [show serializeMembers ((k, v) :: kv2 :: fs2) =
                serializeString k.data ++ ':' :: serialize v ++
                  ',' :: serializeMembers (kv2 :: fs2) from rfl]
              unfold serializeString
              simp
          obtain ⟨t, ht⟩ := hmem
          have hshape : serializeMembers ((k, v) :: fs') ++ '}' :: rest =
              '"' :: (k.data.flatMap escChar ++ '"' :: (t ++ '}' :: rest)) := by
            rw [ht]
            simp
          have hM : parseMembers f (serializeMembers ((k, v) :: fs') ++ '}' :: rest) =
              some ((k, v) :: fs', rest) := by
            apply ihM _ _ (by simp)
            simp [jfuel] at hfuel
            omega
          rw [hshape] at hM
          rw [hser, hshape, parseValue.eq_def]
          have hdig : isDigitChar '{' = false := by decide
          simp [hM, hdig]
    · intro es rest hne hfuel
      cases es with
      | nil => exact absurd rfl hne
      | cons e es' =>
        rw [parseElems.eq_def]
        simp only []
        cases es' with
        | nil =>
          have hV : parseValue f (serialize e ++ ']' :: rest) = some (e, ']' :: rest) := by
            apply ihV
            · simp [jfuelElems] at hfuel
              omega
            · exact numGuard_of_head (by decide)
          rw [show serializeElems [e] ++ ']' :: rest = serialize e ++ ']' :: rest from by
            rw [show serializeElems [e] = serialize e from rfl]]
          rw [hV]
          simp
        | cons e2 es'' =>
          have hV : parseValue f (serialize e ++
              ',' :: (serializeElems (e2 :: es'') ++ ']' :: rest)) =
              some (e, ',' :: (serializeElems (e2 :: es'') ++ ']' :: rest)) := by
            apply ihV
            · simp [jfuelElems] at hfuel ⊢
              omega
            · exact numGuard_of_head (by decide)
          have hE2 : parseElems f (serializeElems (e2 :: es'') ++ ']' :: rest) =
              some (e2 :: es'', rest) := by
            apply ihE _ _ (by simp)
            simp [jfuelElems] at hfuel ⊢
            omega
          rw [show serializeElems (e :: e2 :: es'') ++ ']' :: rest =
            serialize e ++ ',' :: (serializeElems (e2 :: es'') ++ ']' :: rest) from by
            rw [show serializeElems (e :: e2 :: es'') =
              serialize e ++ ',' :: serializeElems (e2 :: es'') from rfl]
            simp]
          rw [hV]
          simp [hE2]
    · intro fs rest hne hfuel
      cases fs with
      | nil => exact absurd rfl hne
      | cons kv fs' =>
        obtain ⟨k, v⟩ := kv
        rw [parseMembers.eq_def]
        simp only []
        have hkl : k.data.length < f := by
          simp [jfuelMembers] at hfuel
          have hlen : k.data.length = k.length := rfl
          omega
        cases fs' with
        | nil =>
          have hstr : parseStringBody f
              (k.data.flatMap escChar ++ '"' :: (':' :: (serialize v ++ '}' :: rest))) =
              some (k.data, ':' :: (serialize v ++ '}' :: rest)) :=
            parseStringBody_roundtrip _ _ _ hkl
          have hV : parseValue f (serialize v ++ '}' :: rest) =
              some (v, '}' :: rest) := by
            apply ihV
            · simp [jfuelMembers] at hfuel
              omega
            · exact numGuard_of_head (by decide)
          rw [show serializeMembers [(k, v)] ++ '}' :: rest =
            '"' :: (k.data.flatMap escChar ++ '"' ::
              (':' :: (serialize v ++ '}' :: rest))) from by
            rw [show serializeMembers [(k, v)] =
              serializeString k.data ++ ':' :: serialize v from rfl]
            unfold serializeString
            simp]
          simp [hstr, hV]
        | cons kv2 fs2 =>
          have hstr : parseStringBody f
              (k.data.flatMap escChar ++ '"' :: (':' :: (serialize v ++
                ',' :: (serializeMembers (kv2 :: fs2) ++ '}' :: rest)))) =
              some (k.data, ':' :: (serialize v ++
                ',' :: (serializeMembers (kv2 :: fs2) ++ '}' :: rest))) :=
            parseStringBody_roundtrip _ _ _ hkl
          have hV : parseValue f (serialize v ++
              ',' :: (serializeMembers (kv2 :: fs2) ++ '}' :: rest)) =
              some (v, ',' :: (serializeMembers (kv2 :: fs2) ++ '}' :: rest)) := by
            apply ihV
            · simp [jfuelMembers] at hfuel
              omega
            · exact numGuard_of_head (by decide)
          have hM2 : parseMembers f (serializeMembers (kv2 :: fs2) ++ '}' :: rest) =
              some (kv2 :: fs2, rest) := by
            apply ihM _ _ (by simp)
            obtain ⟨k2, v2⟩ := kv2
            simp [jfuelMembers] at hfuel ⊢
            omega
          rw [show serializeMembers ((k, v) :: kv2 :: fs2) ++ '}' :: rest =
            '"' :: (k.data.flatMap escChar ++ '"' :: (':' :: (serialize v ++
              ',' :: (serializeMembers (kv2 :: fs2) ++ '}' :: rest)))) from by
            rw [show serializeMembers ((k, v) :: kv2 :: fs2) =
              serializeString k.data ++ ':' :: serialize v ++
                ',' :: serializeMembers (kv2 :: fs2) from rfl]
            unfold serializeString
            simp]
          simp [hstr, hV, hM2]

theorem escChar_length_pos (c : Char) : 1 ≤ (escChar c).length := by
  unfold escChar
  split_ifs <;> simp

theorem flatMap_escChar_length (s : List Char) :
    s.length ≤ (s.flatMap escChar).length := by
  induction s with
  | nil => simp
  | cons c cs ih =>
    have := escChar_length_pos c
    simp only [List.flatMap_cons, List.length_append, List.length_cons]
    omega

theorem intToChars_ne_nil (n : Int) : intToChars n ≠ [] := by
  unfold intToChars
  split_ifs
  · simp
  · exact (natToChars_spec _).2.2

mutual

theorem jfuel_le : ∀ j : Json, jfuel j ≤ 2 * (serialize j).length
  | .null => by decide
  | .bool true => by decide
  | .bool false => by decide
  | .num n => by
    have h := intToChars_ne_nil n
    have : 1 ≤ (intToChars n).length := by
      cases hc : intToChars n with
      | nil => exact absurd hc h
      | cons a as => simp
    rw [show serialize (Json.num n) = intToChars n from rfl, show jfuel (Json.num n) = 1 from rfl]
    omega
  | .str s => by
    have h := flatMap_escChar_length s
    rw [show serialize (Json.str s) = serializeString s from rfl,
      show jfuel (Json.str s) = s.length + 2 from rfl]
    unfold serializeString
    simp only [List.length_cons, List.length_append, List.length_singleton]
    omega
  | .arr es => by
    have h := jfuelElems_le es
    rw [show serialize (Json.arr es) = '[' :: serializeElems es ++ [']'] from rfl,
      show jfuel (Json.arr es) = jfuelElems es + 2 from rfl]
    simp only [List.length_append, List.length_cons, List.length_singleton]
    omega
  | .obj fs => by
    have h := jfuelMembers_le fs
    rw [show serialize (Json.obj fs) = '{' :: serializeMembers fs ++ ['}'] from rfl,
      show jfuel (Json.obj fs) = jfuelMembers fs + 2 from rfl]
    simp only [List.length_append, List.length_cons, List.length_singleton]
    omega

theorem jfuelElems_le : ∀ es : List Json,
    jfuelElems es ≤ 2 * (serializeElems es).length + 2
  | [] => by simp [jfuelElems, serializeElems]
  | [e] => by
    have h := jfuel_le e
    rw [show serializeElems [e] = serialize e from rfl,
      show jfuelElems [e] = jfuel e + jfuelElems [] + 2 from rfl,
      show jfuelElems [] = 0 from rfl]
    omega
  | e :: e2 :: es => by
    have h1 := jfuel_le e
    have h2 := jfuelElems_le (e2 :: es)
    rw [show serializeElems (e :: e2 :: es) =
      serialize e ++ ',' :: serializeElems (e2 :: es) from rfl,
      show jfuelElems (e :: e2 :: es) = jfuel e + jfuelElems (e2 :: es) + 2 from rfl]
    simp only [List.length_append, List.length_cons]
    omega

theorem jfuelMembers_le : ∀ fs : List (String × Json),
    jfuelMembers fs ≤ 2 * (serializeMembers fs).length + 2
  | [] => by simp [jfuelMembers, serializeMembers]
  | [(k, v)] => by
    have h := jfuel_le v
    have hk := flatMap_escChar_length k.data
    rw [show serializeMembers [(k, v)] =
      serializeString k.data ++ ':' :: serialize v from rfl,
      show jfuelMembers [(k, v)] = k.data.length + jfuel v + jfuelMembers [] + 4 from rfl,
      show jfuelMembers ([] : List (String × Json)) = 0 from rfl]
    unfold serializeString
    simp only [List.length_append, List.length_cons, List.length_singleton]
    omega
  | (k, v) :: kv2 :: fs => by
    have h := jfuel_le v
    have hk := flatMap_escChar_length k.data
    have h2 := jfuelMembers_le (kv2 :: fs)
    rw [show serializeMembers ((k, v) :: kv2 :: fs) =
      serializeString k.data ++ ':' :: serialize v ++
        ',' :: serializeMembers (kv2 :: fs) from rfl,
      show jfuelMembers ((k, v) :: kv2 :: fs) =
        k.data.length + jfuel v + jfuelMembers (kv2 :: fs) + 4 from rfl]
    unfold serializeString
    simp only [List.length_append, List.length_cons, List.length_singleton]
    omega

end

theorem numGuard_nil (j : Json) : numGuard j [] := by
  cases j <;> simp [numGuard]

/-- `JSON.parse (JSON.stringify j)` recovers `j` exactly. -/
theorem jsonParse_serialize (j : Json) : jsonParse (serialize j) = some j := by
  unfold jsonParse
  have h1 : jfuel j ≤ 2 * (serialize j).length + 2 :=
    le_trans (jfuel_le j) (by omega)
  have h2 := (parse_serialize_mutual (2 * (serialize j).length + 2)).1 j []
    h1 (numGuard_nil j)
  rw [List.append_nil] at h2
  rw [h2]

/-! ### AES-GCM (`crypto.subtle` with `AES-GCM`)

The mode is modelled concretely: a counter-mode keystream XORed over the
plaintext and an authentication tag appended to the ciphertext and checked
before decryption releases any plaintext.  The AES-256 block function and the
GHASH-based tag derivation are parameters of the model — the verified
behaviour does not depend on their internals. -/

structure AeadPrimitives where
  block : List Nat → List Nat → List Nat
  tag : List Nat → List Nat → List Nat → List Nat

/-- 16-byte counter block for keystream block `i`: the 12-byte IV followed by
a 4-byte big-endian counter (payload counters start at 2 in GCM). -/
def ctrBlock (iv : List Nat) (i : Nat) : List Nat :=
  iv ++ [i / 16777216 % 256, i / 65536 % 256, i / 256 % 256, i % 256]

/-- Byte `i` of the CTR keystream. -/
def keystreamByte (P : AeadPrimitives) (key iv : List Nat) (i : Nat) : Nat :=
  (P.block key (ctrBlock iv (i / 16 + 2))).getD (i % 16) 0

/-- The first `n` keystream bytes. -/
def keystream (P : AeadPrimitives) (key iv : List Nat) (n : Nat) : List Nat :=
  (List.range n).map (keystreamByte P key iv)

/-- `crypto.subtle.encrypt({name:"AES-GCM", iv}, key, plaintext)`: ciphertext
body followed by the 16-byte authentication tag. -/
def gcmEncrypt (P : AeadPrimitives) (key iv plaintext : List Nat) : List Nat :=
  let body := List.zipWith (· ^^^ ·) plaintext (keystream P key iv plaintext.length)
  body ++ P.tag key iv body

/-- `crypto.subtle.decrypt`: recompute and check the tag, then strip the
keystream; fails (`OperationError`) when the tag does not verify. -/
def gcmDecrypt (P : AeadPrimitives) (key iv ct : List Nat) : Option (List Nat) :=
  if ct.length < 16 then none
  else
    let body := ct.take (ct.length - 16)
    let t := ct.drop (ct.length - 16)
    if t = P.tag key iv body then
      some (List.zipWith (· ^^^ ·) body (keystream P key iv body.length))
    else none

theorem zipWith_xor_cancel : ∀ (xs ys : List Nat), xs.length ≤ ys.length →
    List.zipWith (· ^^^ ·) (List.zipWith (· ^^^ ·) xs ys) ys = xs := by
  intro xs
  induction xs with
  | nil => intro ys _; simp
  | cons x xs ih =>
    intro ys hlen
    cases ys with
    | nil => simp at hlen
    | cons y ys' =>
      simp only [List.zipWith_cons_cons, List.cons.injEq]
      exact ⟨Nat.xor_cancel_right y x, ih ys' (by simpa using hlen)⟩

theorem length_keystream (P : AeadPrimitives) (key iv : List Nat) (n : Nat) :
    (keystream P key iv n).length = n := by
  simp [keystream]

theorem gcmDecrypt_gcmEncrypt (P : AeadPrimitives) (key iv pt : List Nat)
    (htaglen : ∀ k i b, (P.tag k i b).length = 16) :
    gcmDecrypt P key iv (gcmEncrypt P key iv pt) = some pt := by
  unfold gcmEncrypt gcmDecrypt
  have hks := length_keystream P key iv pt.length
  have hbody : (List.zipWith (· ^^^ ·) pt (keystream P key iv pt.length)).length =
      pt.length := by
    rw [List.length_zipWith, hks]
    omega
  set body := List.zipWith (· ^^^ ·) pt (keystream P key iv pt.length) with hb
  have hct : (body ++ P.tag key iv body).length = pt.length + 16 := by
    rw [List.length_append, htaglen, hbody]
  rw [hct]
  rw [if_neg (by omega)]
  have hidx : pt.length + 16 - 16 = body.length := by omega
  rw [hidx]
  rw [List.take_left, List.drop_left]
  rw [if_pos rfl]
  rw [hbody, zipWith_xor_cancel pt _ (by rw [hks])]

theorem getD_lt_of_isBytes {l : List Nat} (h : IsBytes l) (i : Nat) :
    l.getD i 0 < 256 := by
  rcases Nat.lt_or_ge i l.length with hi | hi
  · rw [List.getD_eq_getElem l 0 hi]
    exact h _ (List.getElem_mem hi)
  · rw [List.getD_eq_default l 0 hi]
    omega

theorem isBytes_keystream (P : AeadPrimitives) (key iv : List Nat) (n : Nat)
    (hblock : ∀ k c, IsBytes (P.block k c)) :
    IsBytes (keystream P key iv n) := by
  intro x hx
  simp [keystream] at hx
  obtain ⟨i, _, hi⟩ := hx
  rw [← hi]
  exact getD_lt_of_isBytes (hblock key (ctrBlock iv (i / 16 + 2))) (i % 16)

theorem isBytes_zipWith_xor : ∀ {xs ys : List Nat}, IsBytes xs → IsBytes ys →
    IsBytes (List.zipWith (· ^^^ ·) xs ys) := by
  intro xs
  induction xs with
  | nil => intro ys _ _; intro x hx; simp at hx
  | cons x xs ih =>
    intro ys hx hy
    cases ys with
    | nil => intro z hz; simp at hz
    | cons y ys' =>
      intro z hz
      simp only [List.zipWith_cons_cons, List.mem_cons] at hz
      rcases hz with hz | hz
      · subst hz
        have h1 : x < 256 := hx x (by simp)
        have h2 : y < 256 := hy y (by simp)
        calc x ^^^ y < 2 ^ 8 := Nat.xor_lt_two_pow h1 h2
        _ = 256 := by norm_num
      · exact ih (fun a ha => hx a (by simp [ha])) (fun a ha => hy a (by simp [ha])) z hz

theorem isBytes_gcmEncrypt (P : AeadPrimitives) (key iv pt : List Nat)
    (hpt : IsBytes pt) (hblock : ∀ k c, IsBytes (P.block k c))
    (htagbytes : ∀ k i b, IsBytes (P.tag k i b)) :
    IsBytes (gcmEncrypt P key iv pt) := by
  intro x hx
  unfold gcmEncrypt at hx
  rw [List.mem_append] at hx
  rcases hx with hx | hx
  · exact isBytes_zipWith_xor hpt (isBytes_keystream P key iv pt.length hblock) x hx
  · exact htagbytes _ _ _ x hx

/-! ### `lib/crypto.ts`: the application-record cipher -/

structure EncryptedBlob where
  ciphertext : List Char
  iv : List Char
  alg : String
  v : Nat
  deriving Repr, DecidableEq

/-- `getCryptoKey` (crypto.ts): the `ENCRYPTION_KEY` env value must be present
and decode to exactly 32 bytes. -/
def getCryptoKey (keyB64 : Option (List Char)) : Except String (List Nat) :=
  match keyB64 with
  | none => .error "ENCRYPTION_KEY env var is required (base64-encoded 32 bytes)."
  | some chars =>
    match base64Decode chars with
    | none => .error "ENCRYPTION_KEY must decode to 32 bytes for AES-256-GCM."
    | some raw =>
      if raw.length = 32 then .ok raw
      else .error "ENCRYPTION_KEY must decode to 32 bytes for AES-256-GCM."

/-- `encryptObject` (crypto.ts): JSON-serialise, UTF-8 encode, AES-GCM encrypt
under the configured key with the supplied random 12-byte IV, and base64 the
ciphertext and IV into the versioned blob. -/
def encryptObject (P : AeadPrimitives) (keyB64 : Option (List Char))
    (iv : List Nat) (data : Json) : Except String EncryptedBlob :=
  match getCryptoKey keyB64 with
  | .error e => .error e
  | .ok key =>
    let plaintext := utf8Encode (serialize data)
    let ct := gcmEncrypt P key iv plaintext
    .ok ⟨base64Encode ct, base64Encode iv, "aes-256-gcm", 1⟩

/-- `decryptObject` (crypto.ts): reject foreign `alg` tags, then base64-decode,
AES-GCM decrypt (tag-checked) and `JSON.parse`. -/
def decryptObject (P : AeadPrimitives) (keyB64 : Option (List Char))
    (blob : EncryptedBlob) : Except String Json :=
  if blob.alg = "aes-256-gcm" then
    match getCryptoKey keyB64 with
    | .error e => .error e
    | .ok key =>
      match base64Decode blob.iv with
      | none => .error "Invalid base64 IV."
      | some iv =>
        match base64Decode blob.ciphertext with
        | none => .error "Invalid base64 ciphertext."
        | some ct =>
          match gcmDecrypt P key iv ct with
          | none => .error "OperationError: AES-GCM authentication failed."
          | some pt =>
            match utf8Decode pt with
            | none => .error "Malformed UTF-8 plaintext."
            | some chars =>
              match jsonParse chars with
              | none => .error "JSON parse error."
              | some j => .ok j
  else .error "Unsupported or missing encryption algorithm."

/-- The cipher round-trip, as a reusable lemma. -/
theorem cipherRoundtrip
    (P : AeadPrimitives) (keyB64 : List Char) (key iv : List Nat) (v : Json)
    (hkey : base64Decode keyB64 = some key) (hklen : key.length = 32)
    (hiv : IsBytes iv)
    (hblock : ∀ k c, IsBytes (P.block k c))
    (htaglen : ∀ k i b, (P.tag k i b).length = 16)
    (htagbytes : ∀ k i b, IsBytes (P.tag k i b)) :
    (encryptObject P (some keyB64) iv v).bind
      (fun blob => decryptObject P (some keyB64) blob) = Except.ok v := by
  have hgk : getCryptoKey (some keyB64) = .ok key := by
    unfold getCryptoKey
    simp only []
    rw [hkey]
    simp only []
    rw [if_pos hklen]
  unfold encryptObject
  rw [hgk]
  show decryptObject P (some keyB64)
    ⟨base64Encode (gcmEncrypt P key iv (utf8Encode (serialize v))),
      base64Encode iv, "aes-256-gcm", 1⟩ = Except.ok v
  unfold decryptObject
  rw [if_pos rfl, hgk]
  rw [base64_roundtrip iv hiv]
  rw [base64_roundtrip _
    (isBytes_gcmEncrypt P key iv _ (utf8Encode_bytes _) hblock htagbytes)]
  simp only [gcmDecrypt_gcmEncrypt P key iv _ htaglen, utf8_roundtrip,
    jsonParse_serialize]

/-- C7: the application-record cipher round-trips every JSON value: with a
configured base64 key decoding to exactly 32 bytes,
`decryptObject (encryptObject v) = v`.  The AES block function and tag
derivation are arbitrary byte-valued primitives (the tag 16 bytes long), and
the IV is an arbitrary byte string as produced by `getRandomValues`. -/
theorem decryptObject_encryptObject_roundtrip
    (P : AeadPrimitives) (keyB64 : List Char) (key iv : List Nat) (v : Json)
    (hkey : base64Decode keyB64 = some key) (hklen : key.length = 32)
    (hiv : IsBytes iv)
    (hblock : ∀ k c, IsBytes (P.block k c))
    (htaglen : ∀ k i b, (P.tag k i b).length = 16)
    (htagbytes : ∀ k i b, IsBytes (P.tag k i b)) :
    (encryptObject P (some keyB64) iv v).bind
      (fun blob => decryptObject P (some keyB64) blob) = Except.ok v :=
  cipherRoundtrip P keyB64 key iv v hkey hklen hiv hblock htaglen htagbytes

/-- Concrete witness for C7: a nested record payload through the full
pipeline, with a 32-zero-byte key and constant-valued AEAD primitives. -/
theorem decryptObject_encryptObject_roundtrip_witness :
    (encryptObject ⟨fun _ _ => List.replicate 16 7, fun _ _ _ => List.replicate 16 3⟩
        (some (base64Encode (List.replicate 32 0))) (List.replicate 12 5)
        (Json.obj [("title", Json.str ['h', 'i']), ("pulseRate", Json.num 72),
          ("tags", Json.arr [Json.null, Json.bool true, Json.num (-3)])])).bind
      (fun blob => decryptObject
        ⟨fun _ _ => List.replicate 16 7, fun _ _ _ => List.replicate 16 3⟩
        (some (base64Encode (List.replicate 32 0))) blob) =
      Except.ok (Json.obj [("title", Json.str ['h', 'i']), ("pulseRate", Json.num 72),
        ("tags", Json.arr [Json.null, Json.bool true, Json.num (-3)])]) :=
  decryptObject_encryptObject_roundtrip _ _ _ _ _
    (base64_roundtrip _ (fun x hx => by rw [List.eq_of_mem_replicate hx]; omega))
    (by simp)
    (fun x hx => by rw [List.eq_of_mem_replicate hx]; omega)
    (fun k c x hx => by rw [List.eq_of_mem_replicate hx]; omega)
    (fun k i b => by simp)
    (fun k i b x hx => by rw [List.eq_of_mem_replicate hx]; omega)

/-! ## Health records (firestore.ts)

`addHealthRecord` splits the caller's record data into queryable metadata and
a sensitive payload, encrypts the payload with `encryptObject`, and persists
`{userId, type, date, createdAt, encryptedData}`.  Dates are carried as
integer epoch milliseconds: `Timestamp.fromDate` and
`new Date(iso).getTime()` are order-isomorphic on valid dates, so the
stored `Timestamp` and the ISO string produced by
`convertRecordTimestamps` are both represented by the same integer. -/

/-- A Firestore field value as written by the record functions: a string, a
`Timestamp`, the `serverTimestamp()` sentinel, or the cipher blob. -/
inductive FieldValue where
  | str (s : List Char)
  | ts (millis : Int)
  | serverTs
  | blob (b : EncryptedBlob)
  deriving Repr, DecidableEq

/-- A persisted document: field names with values, in write order. -/
abbrev StoredDoc := List (String × FieldValue)

/-- The `healthRecords` collection, keyed by document id. -/
abbrev RecordStore := List (String × StoredDoc)

/-- Field lookup on a stored document. -/
def docField : StoredDoc → String → Option FieldValue
  | [], _ => none
  | (k, v) :: tl, key => if k = key then some v else docField tl key

/-- `getDoc` on the `healthRecords` collection. -/
def recordStoreGet : RecordStore → String → Option StoredDoc
  | [], _ => none
  | (k, d) :: tl, recordId =>
    if k = recordId then some d else recordStoreGet tl recordId

/-- Replacing the document stored at `recordId`. -/
def recordStoreUpdate : RecordStore → String → StoredDoc → RecordStore
  | [], _, _ => []
  | (k, d) :: tl, recordId, newDoc =>
    if k = recordId then (k, newDoc) :: recordStoreUpdate tl recordId newDoc
    else (k, d) :: recordStoreUpdate tl recordId newDoc

/-- `updateDoc(ref, { k: v })`: sets the one field (in place when present,
appended otherwise) and keeps every other field. -/
def setDocField (doc : StoredDoc) (k : String) (v : FieldValue) : StoredDoc :=
  if doc.any (fun p => decide (p.1 = k)) then
    doc.map (fun p => if p.1 = k then (k, v) else p)
  else doc ++ [(k, v)]

/-- Client-side input to `addHealthRecord` (`recordData`): metadata plus the
sensitive fields, optional ones as `Option` (`undefined` is `none`). -/
structure RecordInput where
  type : List Char
  date : Int
  title : List Char
  content : List Char
  bloodPressure : Option (List Char)
  pulseRate : Option Int
  diagnosis : Option Json
  attachmentUrl : Option (List Char)
  attachmentCid : Option (List Char)
  attachmentEncryptionKey : Option (List Char)
  attachmentEncryptionIv : Option (List Char)

/-- A JSON object member for an optional field: `JSON.stringify` drops
properties whose value is `undefined`. -/
def optMember (k : String) : Option Json → List (String × Json)
  | some v => [(k, v)]
  | none => []

/-- The `sensitivePayload` object literal of `addHealthRecord`, with the
literal's key order. -/
def sensitivePayload (r : RecordInput) : Json :=
  Json.obj ([("title", Json.str r.title), ("content", Json.str r.content)]
    ++ optMember "bloodPressure" (r.bloodPressure.map Json.str)
    ++ optMember "pulseRate" (r.pulseRate.map Json.num)
    ++ optMember "diagnosis" r.diagnosis
    ++ optMember "attachmentUrl" (r.attachmentUrl.map Json.str)
    ++ optMember "attachmentCid" (r.attachmentCid.map Json.str)
    ++ optMember "attachmentEncryptionKey" (r.attachmentEncryptionKey.map Json.str)
    ++ optMember "attachmentEncryptionIv" (r.attachmentEncryptionIv.map Json.str))

/-- `addHealthRecord` (firestore.ts): encrypt the sensitive payload and
persist only the queryable metadata next to the blob.  Returns the document
written by `addDoc` (the collection assigns the id). -/
def addHealthRecord (P : AeadPrimitives) (keyB64 : Option (List Char))
    (iv : List Nat) (userId : List Char) (r : RecordInput) :
    Except String StoredDoc :=
  match encryptObject P keyB64 iv (sensitivePayload r) with
  | .error _ => .error "Failed to add health record."
  | .ok encryptedData =>
    .ok [("userId", .str userId), ("type", .str r.type),
      ("date", .ts r.date), ("createdAt", .serverTs),
      ("encryptedData", .blob encryptedData)]

/-- Member lookup in a JSON object's field list. -/
def lookupMember : List (String × Json) → String → Option Json
  | [], _ => none
  | (k, v) :: tl, key => if k = key then some v else lookupMember tl key

/-- JavaScript property access `value.k` on a decrypted JSON value
(`undefined` on non-objects). -/
def objGet : Json → String → Option Json
  | Json.obj fs, k => lookupMember fs k
  | _, _ => none

/-- `decrypted.k ?? ''`: `undefined` and `null` fall back to the empty
string; any other value passes through. -/
def getOrEmptyStr (dec : Json) (k : String) : Json :=
  match objGet dec k with
  | none => Json.str []
  | some Json.null => Json.str []
  | some v => v

/-- Metadata string field (`meta.userId`, `meta.type`). -/
def metaStr (doc : StoredDoc) (k : String) : List Char :=
  match docField doc k with
  | some (FieldValue.str s) => s
  | _ => []

/-- Metadata date in epoch milliseconds (`convertRecordTimestamps`). -/
def metaDate (doc : StoredDoc) : Int :=
  match docField doc "date" with
  | some (FieldValue.ts m) => m
  | _ => 0

/-- The decrypted sensitive payload under the getters' `try/catch`: the
`decrypted` accumulator stays `{}` whenever `encryptedData` is absent, is
not a cipher blob, or fails to decrypt — every `decryptObject` throw is
caught and logged only. -/
def decryptedOrEmpty (P : AeadPrimitives) (keyB64 : Option (List Char))
    (doc : StoredDoc) : Json :=
  match docField doc "encryptedData" with
  | some (FieldValue.blob b) =>
    match decryptObject P keyB64 b with
    | .ok v => v
    | .error _ => Json.obj []
  | _ => Json.obj []

/-- The `HealthRecord` view assembled by the getters: metadata from the
document, sensitive fields from the decrypted payload, with `?? ''`
defaults on `title` and `content`. -/
structure HealthRecord where
  id : String
  userId : List Char
  type : List Char
  title : Json
  content : Json
  date : Int
  bloodPressure : Option Json
  pulseRate : Option Json
  diagnosis : Option Json
  attachmentUrl : Option Json
  attachmentCid : Option Json
  attachmentEncryptionKey : Option Json
  attachmentEncryptionIv : Option Json

/-- The record object literal shared by `getHealthRecord` and
`getHealthRecords`. -/
def buildRecordView (P : AeadPrimitives) (keyB64 : Option (List Char))
    (id : String) (doc : StoredDoc) : HealthRecord :=
  let dec := decryptedOrEmpty P keyB64 doc
  { id := id
    userId := metaStr doc "userId"
    type := metaStr doc "type"
    title := getOrEmptyStr dec "title"
    content := getOrEmptyStr dec "content"
    date := metaDate doc
    bloodPressure := objGet dec "bloodPressure"
    pulseRate := objGet dec "pulseRate"
    diagnosis := objGet dec "diagnosis"
    attachmentUrl := objGet dec "attachmentUrl"
    attachmentCid := objGet dec "attachmentCid"
    attachmentEncryptionKey := objGet dec "attachmentEncryptionKey"
    attachmentEncryptionIv := objGet dec "attachmentEncryptionIv" }

/-- `getHealthRecord` (firestore.ts): `null` when the document does not
exist, otherwise the assembled view — decrypt failures never propagate. -/
def getHealthRecord (P : AeadPrimitives) (keyB64 : Option (List Char))
    (store : RecordStore) (recordId : String) :
    Except String (Option HealthRecord) :=
  match recordStoreGet store recordId with
  | none => .ok none
  | some doc => .ok (some (buildRecordView P keyB64 recordId doc))

/-- `getHealthRecords` (firestore.ts): query by `userId`, assemble each view,
then `records.sort((a, b) => new Date(b.date).getTime() - new
Date(a.date).getTime())` — a stable sort by date, newest first. -/
def getHealthRecords (P : AeadPrimitives) (keyB64 : Option (List Char))
    (store : RecordStore) (userId : List Char) :
    Except String (List HealthRecord) :=
  let docs := store.filter
    (fun p => decide (docField p.2 "userId" = some (FieldValue.str userId)))
  let records := docs.map (fun p => buildRecordView P keyB64 p.1 p.2)
  .ok (records.mergeSort (fun a b => decide (b.date ≤ a.date)))

/-- The fields spread by `{...value}` (non-objects contribute nothing). -/
def spreadFields : Json → List (String × Json)
  | Json.obj fs => fs
  | _ => []

/-- `{ ...fs, k: v }`: replaces `k` in place when present, appends the member
otherwise. -/
def overrideMember (fs : List (String × Json)) (k : String) (v : Json) :
    List (String × Json) :=
  if fs.any (fun p => decide (p.1 = k)) then
    fs.map (fun p => if p.1 = k then (k, v) else p)
  else fs ++ [(k, v)]

/-- `data.encryptedData` handling inside `addDiagnosisToRecord`: a missing
(or empty-string, hence falsy) field leaves `decrypted = {}`; a cipher blob
is decrypted with no inner catch, so a failure escapes to the function's
catch-all; any other truthy value makes `decryptObject` reject the payload. -/
def decryptStored (P : AeadPrimitives) (keyB64 : Option (List Char))
    (doc : StoredDoc) : Except String Json :=
  match docField doc "encryptedData" with
  | some (FieldValue.blob b) => decryptObject P keyB64 b
  | some (FieldValue.str s) =>
    if s = [] then .ok (Json.obj [])
    else .error "Unsupported or missing encryption algorithm."
  | some _ => .error "Unsupported or missing encryption algorithm."
  | none => .ok (Json.obj [])

/-- `{...decrypted, diagnosis: {...diagnosis, createdAt: now}}`. -/
def diagnosisMerged (dec : Json) (diagnosis : List (String × Json))
    (now : List Char) : Json :=
  Json.obj (overrideMember (spreadFields dec) "diagnosis"
    (Json.obj (overrideMember diagnosis "createdAt" (Json.str now))))

/-- `addDiagnosisToRecord` (firestore.ts): decrypt the stored payload, merge
in the diagnosis stamped with the current ISO time, re-encrypt, and update
only the `encryptedData` field; every failure lands in the catch-all
result. -/
def addDiagnosisToRecord (P : AeadPrimitives) (keyB64 : Option (List Char))
    (iv : List Nat) (store : RecordStore) (recordId : String)
    (diagnosis : List (String × Json)) (now : List Char) :
    ActionResult × RecordStore :=
  match recordStoreGet store recordId with
  | none => (⟨false, some "Record not found."⟩, store)
  | some doc =>
    match decryptStored P keyB64 doc with
    | .error _ => (⟨false, some "Failed to add diagnosis."⟩, store)
    | .ok dec =>
      match encryptObject P keyB64 iv (diagnosisMerged dec diagnosis now) with
      | .error _ => (⟨false, some "Failed to add diagnosis."⟩, store)
      | .ok newBlob =>
        (⟨true, none⟩,
         recordStoreUpdate store recordId
           (setDocField doc "encryptedData" (FieldValue.blob newBlob)))

/-! ### Cipher-layer equations used by the record proofs -/

/-- The blob `encryptObject` produces under a valid key. -/
def encBlob (P : AeadPrimitives) (key iv : List Nat) (v : Json) :
    EncryptedBlob :=
  ⟨base64Encode (gcmEncrypt P key iv (utf8Encode (serialize v))),
   base64Encode iv, "aes-256-gcm", 1⟩

theorem getCryptoKey_ok {keyB64 : List Char} {key : List Nat}
    (hkey : base64Decode keyB64 = some key) (hklen : key.length = 32) :
    getCryptoKey (some keyB64) = Except.ok key := by
  unfold getCryptoKey
  simp only []
  rw [hkey]
  simp only []
  rw [if_pos hklen]

theorem encryptObject_eq (P : AeadPrimitives) {keyB64 : List Char}
    {key : List Nat} (iv : List Nat) (v : Json)
    (hgk : getCryptoKey (some keyB64) = Except.ok key) :
    encryptObject P (some keyB64) iv v = Except.ok (encBlob P key iv v) := by
  unfold encryptObject encBlob
  rw [hgk]

theorem decryptObject_encBlob (P : AeadPrimitives) {keyB64 : List Char}
    {key : List Nat} (iv : List Nat) (v : Json)
    (hkey : base64Decode keyB64 = some key) (hklen : key.length = 32)
    (hiv : IsBytes iv)
    (hblock : ∀ k c, IsBytes (P.block k c))
    (htaglen : ∀ k i b, (P.tag k i b).length = 16)
    (htagbytes : ∀ k i b, IsBytes (P.tag k i b)) :
    decryptObject P (some keyB64) (encBlob P key iv v) = Except.ok v := by
  have h := cipherRoundtrip P keyB64 key iv v hkey hklen hiv hblock htaglen htagbytes
  rw [encryptObject_eq P iv v (getCryptoKey_ok hkey hklen)] at h
  exact h

/-! ### Frame lemmas for `setDocField` -/

theorem docField_map_override (doc : StoredDoc) (k key : String)
    (v : FieldValue) (h : key ≠ k) :
    docField (doc.map (fun p => if p.1 = k then (k, v) else p)) key =
      docField doc key := by
  induction doc with
  | nil => rfl
  | cons hd tl ih =>
    obtain ⟨k1, v1⟩ := hd
    simp only [List.map_cons]
    by_cases h1 : k1 = k
    · rw [show (if (k1, v1).1 = k then (k, v) else (k1, v1)) = (k, v) from by
        simp [h1]]
      simp only [docField]
      rw [if_neg (fun e => h e.symm), if_neg (fun e : k1 = key => h (e ▸ h1)), ih]
    · rw [show (if (k1, v1).1 = k then (k, v) else (k1, v1)) = (k1, v1) from by
        simp [h1]]
      simp only [docField]
      by_cases h2 : k1 = key
      · rw [if_pos h2, if_pos h2]
      · rw [if_neg h2, if_neg h2, ih]

theorem docField_append_single (doc : StoredDoc) (k key : String)
    (v : FieldValue) (h : key ≠ k) :
    docField (doc ++ [(k, v)]) key = docField doc key := by
  induction doc with
  | nil =>
    simp only [List.nil_append, docField]
    rw [if_neg (fun e => h e.symm)]
  | cons hd tl ih =>
    obtain ⟨k1, v1⟩ := hd
    simp only [List.cons_append, docField, List.append_eq]
    by_cases h2 : k1 = key
    · rw [if_pos h2, if_pos h2]
    · rw [if_neg h2, if_neg h2, ih]

theorem docField_setDocField_ne (doc : StoredDoc) (k key : String)
    (v : FieldValue) (h : key ≠ k) :
    docField (setDocField doc k v) key = docField doc key := by
  unfold setDocField
  split
  · exact docField_map_override doc k key v h
  · exact docField_append_single doc k key v h

/-- C2: persisted record documents carry sensitive data only inside the
cipher blob.  `addHealthRecord` writes exactly the five fields `userId`,
`type`, `date`, `createdAt` and `encryptedData` — the first four functions of
the non-sensitive inputs alone — and the blob decrypts back to precisely the
sensitive payload (title, content, blood pressure, pulse rate, diagnosis,
attachment URL/CID/key/IV).  `addDiagnosisToRecord` rewrites only the
`encryptedData` field, whose new blob decrypts to the merged payload with
the diagnosis inside it; every other field is untouched. -/
theorem health_record_persists_only_encrypted
    (P : AeadPrimitives) (keyB64 : List Char) (key iv : List Nat)
    (hkey : base64Decode keyB64 = some key) (hklen : key.length = 32)
    (hiv : IsBytes iv)
    (hblock : ∀ k c, IsBytes (P.block k c))
    (htaglen : ∀ k i b, (P.tag k i b).length = 16)
    (htagbytes : ∀ k i b, IsBytes (P.tag k i b)) :
    (∀ userId r, ∃ blob,
      addHealthRecord P (some keyB64) iv userId r = Except.ok
        [("userId", FieldValue.str userId), ("type", FieldValue.str r.type),
         ("date", FieldValue.ts r.date), ("createdAt", FieldValue.serverTs),
         ("encryptedData", FieldValue.blob blob)]
      ∧ decryptObject P (some keyB64) blob = Except.ok (sensitivePayload r))
    ∧ (∀ store recordId doc b dec diagnosis now,
        recordStoreGet store recordId = some doc →
        docField doc "encryptedData" = some (FieldValue.blob b) →
        decryptObject P (some keyB64) b = Except.ok dec →
        ∃ newBlob,
          addDiagnosisToRecord P (some keyB64) iv store recordId diagnosis now =
            (⟨true, none⟩,
             recordStoreUpdate store recordId
               (setDocField doc "encryptedData" (FieldValue.blob newBlob)))
          ∧ decryptObject P (some keyB64) newBlob =
              Except.ok (diagnosisMerged dec diagnosis now)
          ∧ ∀ k, k ≠ "encryptedData" →
              docField (setDocField doc "encryptedData" (FieldValue.blob newBlob)) k =
                docField doc k) := by
  have hgk : getCryptoKey (some keyB64) = Except.ok key := getCryptoKey_ok hkey hklen
  constructor
  · intro userId r
    refine ⟨encBlob P key iv (sensitivePayload r), ?_, ?_⟩
    · unfold addHealthRecord
      rw [encryptObject_eq P iv _ hgk]
    · exact decryptObject_encBlob P iv _ hkey hklen hiv hblock htaglen htagbytes
  · intro store recordId doc b dec diagnosis now hget hblob hdec
    refine ⟨encBlob P key iv (diagnosisMerged dec diagnosis now), ?_, ?_, ?_⟩
    · have hds : decryptStored P (some keyB64) doc = Except.ok dec := by
        unfold decryptStored
        rw [hblob]
        exact hdec
      unfold addDiagnosisToRecord
      rw [hget]
      simp only []
      rw [hds]
      simp only []
      rw [encryptObject_eq P iv _ hgk]
    · exact decryptObject_encBlob P iv _ hkey hklen hiv hblock htaglen htagbytes
    · intro k hk
      exact docField_setDocField_ne doc "encryptedData" k (FieldValue.blob _) hk

/-! ### Concrete crypto fixtures shared by the witnesses -/

/-- Constant-valued AEAD primitives (a legitimate instantiation of the
uninterpreted block/tag functions). -/
def cPrims : AeadPrimitives :=
  ⟨fun _ _ => List.replicate 16 7, fun _ _ _ => List.replicate 16 3⟩

def cKeyBytes : List Nat := List.replicate 32 0

def cKeyB64 : List Char := base64Encode cKeyBytes

def cIv : List Nat := List.replicate 12 5

theorem cKeyB64_decodes : base64Decode cKeyB64 = some cKeyBytes :=
  base64_roundtrip _ (fun x hx => by rw [List.eq_of_mem_replicate hx]; omega)

theorem cKeyBytes_len : cKeyBytes.length = 32 := by simp [cKeyBytes]

theorem cIv_isBytes : IsBytes cIv :=
  fun x hx => by rw [List.eq_of_mem_replicate hx]; omega

theorem cPrims_block : ∀ k c, IsBytes (cPrims.block k c) :=
  fun _ _ x hx => by rw [List.eq_of_mem_replicate hx]; omega

theorem cPrims_taglen : ∀ k i b, (cPrims.tag k i b).length = 16 :=
  fun _ _ _ => by simp [cPrims]

theorem cPrims_tagbytes : ∀ k i b, IsBytes (cPrims.tag k i b) :=
  fun _ _ _ x hx => by rw [List.eq_of_mem_replicate hx]; omega

/-- A concrete record input with a pulse-rate reading. -/
def cInput : RecordInput :=
  { type := ['n', 'o', 't', 'e'], date := 1700000000000, title := ['t'],
    content := ['c'], bloodPressure := none, pulseRate := some 72,
    diagnosis := none, attachmentUrl := none, attachmentCid := none,
    attachmentEncryptionKey := none, attachmentEncryptionIv := none }

/-- Concrete witness for C2: one record written end to end with the fixture
key; the document is exactly the five metadata fields and the blob decrypts
to the sensitive payload. -/
theorem health_record_persists_only_encrypted_witness :
    ∃ blob,
      addHealthRecord cPrims (some cKeyB64) cIv ['u', '1'] cInput = Except.ok
        [("userId", FieldValue.str ['u', '1']),
         ("type", FieldValue.str cInput.type),
         ("date", FieldValue.ts cInput.date), ("createdAt", FieldValue.serverTs),
         ("encryptedData", FieldValue.blob blob)]
      ∧ decryptObject cPrims (some cKeyB64) blob =
          Except.ok (sensitivePayload cInput) :=
  (health_record_persists_only_encrypted cPrims cKeyB64 cKeyBytes cIv
    cKeyB64_decodes cKeyBytes_len cIv_isBytes cPrims_block cPrims_taglen
    cPrims_tagbytes).1 ['u', '1'] cInput

/-- C10: `getHealthRecords` returns exactly the given user's records — a
permutation of the views of the documents whose `userId` field matches —
sorted by the record date in descending order (newest first). -/
theorem getHealthRecords_sorted_desc (P : AeadPrimitives)
    (keyB64 : Option (List Char)) (store : RecordStore) (userId : List Char) :
    ∃ recs, getHealthRecords P keyB64 store userId = Except.ok recs
      ∧ recs.Perm ((store.filter (fun p =>
            decide (docField p.2 "userId" = some (FieldValue.str userId)))).map
          (fun p => buildRecordView P keyB64 p.1 p.2))
      ∧ recs.Pairwise (fun a b => b.date ≤ a.date) := by
  refine ⟨_, rfl, List.mergeSort_perm _ _, ?_⟩
  have h := @List.sorted_mergeSort HealthRecord
    (fun a b => decide (b.date ≤ a.date))
    (fun a b c hab hbc => by simp only [decide_eq_true_eq] at *; omega)
    (fun a b => by simp only [Bool.or_eq_true, decide_eq_true_eq]; omega)
    ((store.filter (fun p =>
        decide (docField p.2 "userId" = some (FieldValue.str userId)))).map
      (fun p => buildRecordView P keyB64 p.1 p.2))
  exact h.imp (fun hab => by simpa using hab)

/-! ### Decrypt failures in the getters

The source wraps `decryptObject` in the getters in a `try/catch` whose
handler only logs; `decrypted` stays `{}`, and the view is assembled with
`decrypted.title ?? ''` / `decrypted.content ?? ''` and `undefined` optional
fields.  A tag mismatch therefore surfaces to the caller as a record with
empty sensitive fields, not as an error. -/

/-- A blob whose ciphertext is 16 bytes of `1`: under the fixture primitives
the recomputed tag is 16 bytes of `3`, so authentication fails. -/
def tamperBlob : EncryptedBlob :=
  ⟨base64Encode (List.replicate 16 1), base64Encode cIv, "aes-256-gcm", 1⟩

def tamperDoc : StoredDoc :=
  [("userId", FieldValue.str ['u']), ("type", FieldValue.str ['t']),
   ("date", FieldValue.ts 3), ("createdAt", FieldValue.serverTs),
   ("encryptedData", FieldValue.blob tamperBlob)]

def tamperStore : RecordStore := [("r1", tamperDoc)]

/-- C4 (amended): when a stored record's blob fails to decrypt, the getters
do not surface an error: `getHealthRecord` succeeds and returns the record
with its metadata intact, `title` and `content` as empty strings, and every
optional sensitive field absent — the decrypt failure is caught, logged and
downgraded to empty output. -/
theorem getHealthRecord_decrypt_failure_empty
    (P : AeadPrimitives) (keyB64 : Option (List Char)) (store : RecordStore)
    (recordId : String) (doc : StoredDoc) (b : EncryptedBlob)
    (hget : recordStoreGet store recordId = some doc)
    (hblob : docField doc "encryptedData" = some (FieldValue.blob b))
    (herr : ∃ e, decryptObject P keyB64 b = Except.error e) :
    getHealthRecord P keyB64 store recordId = Except.ok (some
      { id := recordId, userId := metaStr doc "userId",
        type := metaStr doc "type", title := Json.str [],
        content := Json.str [], date := metaDate doc,
        bloodPressure := none, pulseRate := none, diagnosis := none,
        attachmentUrl := none, attachmentCid := none,
        attachmentEncryptionKey := none, attachmentEncryptionIv := none }) := by
  obtain ⟨e, he⟩ := herr
  have hdec : decryptedOrEmpty P keyB64 doc = Json.obj [] := by
    unfold decryptedOrEmpty
    rw [hblob]
    simp only []
    rw [he]
  unfold getHealthRecord
  rw [hget]
  simp only [buildRecordView]
  rw [hdec]
  rfl

/-- C4 counterexample: a concrete store whose single record carries a
tag-mismatched blob.  `decryptObject` rejects the blob with the
authentication failure, yet `getHealthRecord` and `getHealthRecords` both
succeed and hand back the record with empty `title`/`content` — the decrypt
error is never propagated. -/
theorem getHealthRecord_swallows_tag_mismatch :
    decryptObject cPrims (some cKeyB64) tamperBlob =
        Except.error "OperationError: AES-GCM authentication failed."
      ∧ getHealthRecord cPrims (some cKeyB64) tamperStore "r1" =
          Except.ok (some
            { id := "r1", userId := ['u'], type := ['t'],
              title := Json.str [], content := Json.str [], date := 3,
              bloodPressure := none, pulseRate := none, diagnosis := none,
              attachmentUrl := none, attachmentCid := none,
              attachmentEncryptionKey := none, attachmentEncryptionIv := none })
      ∧ getHealthRecords cPrims (some cKeyB64) tamperStore ['u'] =
          Except.ok
            [{ id := "r1", userId := ['u'], type := ['t'],
               title := Json.str [], content := Json.str [], date := 3,
               bloodPressure := none, pulseRate := none, diagnosis := none,
               attachmentUrl := none, attachmentCid := none,
               attachmentEncryptionKey := none, attachmentEncryptionIv := none }] := by
  refine ⟨rfl, rfl, ?_⟩
  have h : getHealthRecords cPrims (some cKeyB64) tamperStore ['u'] =
      Except.ok
        ([{ id := "r1", userId := ['u'], type := ['t'],
            title := Json.str [], content := Json.str [], date := 3,
            bloodPressure := none, pulseRate := none, diagnosis := none,
            attachmentUrl := none, attachmentCid := none,
            attachmentEncryptionKey := none,
            attachmentEncryptionIv := none }].mergeSort
          (fun a b => decide (b.date ≤ a.date))) := rfl
  rw [h, List.mergeSort_singleton]

/-- Concrete witness for the amended C4 theorem, at the tampered store. -/
theorem getHealthRecord_decrypt_failure_empty_witness :
    getHealthRecord cPrims (some cKeyB64) tamperStore "r1" = Except.ok (some
      { id := "r1", userId := metaStr tamperDoc "userId",
        type := metaStr tamperDoc "type", title := Json.str [],
        content := Json.str [], date := metaDate tamperDoc,
        bloodPressure := none, pulseRate := none, diagnosis := none,
        attachmentUrl := none, attachmentCid := none,
        attachmentEncryptionKey := none, attachmentEncryptionIv := none }) :=
  getHealthRecord_decrypt_failure_empty cPrims (some cKeyB64) tamperStore "r1"
    tamperDoc tamperBlob (by rfl) (by rfl)
    ⟨"OperationError: AES-GCM authentication failed.", by rfl⟩

/-! ## Doctor-facing record gates (lib/actions.ts)

The three server actions check the doctor's `successfulConnections` array and
never consult the on-chain registry: the contract client is importable in
server actions, so the ledger's `hasAccess` view is threaded through as an
oracle to make that independence a theorem rather than a remark. -/

/-- `getPatientRecordForDoctor` (actions.ts). -/
def getPatientRecordForDoctor (_ledger : String → Bool) (P : AeadPrimitives)
    (keyB64 : Option (List Char)) (users : UserStore) (records : RecordStore)
    (doctorId recordId : String) : Except String HealthRecord :=
  match getHealthRecord P keyB64 records recordId with
  | .error e => .error e
  | .ok none => .error "Record not found."
  | .ok (some record) =>
    match getUserDocument users doctorId with
    | none => .error "You do not have permission to view this record."
    | some doctorDoc =>
      if String.mk record.userId ∈ doctorDoc.successfulConnections then
        .ok record
      else .error "You do not have permission to view this record."

/-- `addDiagnosisToRecord` (actions.ts): the doctor-level wrapper around the
firestore-level function; stamps the diagnosis with the doctor's identity.
An `Except.error` models an exception escaping the action. -/
def addDiagnosisToRecordAction (_ledger : String → Bool) (P : AeadPrimitives)
    (keyB64 : Option (List Char)) (iv : List Nat) (users : UserStore)
    (records : RecordStore) (doctorId recordId : String)
    (diagnosisData : List (String × Json)) (now : List Char) :
    Except String (ActionResult × RecordStore) :=
  match getHealthRecord P keyB64 records recordId with
  | .error e => .error e
  | .ok none => .ok (⟨false, some "Record not found."⟩, records)
  | .ok (some record) =>
    match getUserDocument users doctorId with
    | none => .ok (⟨false, some "Doctor not found."⟩, records)
    | some doctor =>
      if String.mk record.userId ∈ doctor.successfulConnections then
        let diagnosis := overrideMember
          (overrideMember diagnosisData "doctorId" (Json.str doctor.uid.data))
          "doctorEmail" (Json.str doctor.email.data)
        .ok (addDiagnosisToRecord P keyB64 iv records recordId diagnosis now)
      else .ok (⟨false, some "You are not connected with this patient."⟩, records)

/-- `getPatientRecordsForDoctor` (actions.ts). -/
def getPatientRecordsForDoctor (_ledger : String → Bool) (P : AeadPrimitives)
    (keyB64 : Option (List Char)) (users : UserStore) (records : RecordStore)
    (doctorId patientId : String) : Except String (List HealthRecord) :=
  if doctorId = "" then
    .error "Authentication error. You must be logged in."
  else
    match getUserDocument users doctorId with
    | none => .error "You do not have permission to view these records."
    | some doctorDoc =>
      if patientId ∈ doctorDoc.successfulConnections then
        getHealthRecords P keyB64 records patientId.data
      else .error "You do not have permission to view these records."

/-- C1: the consent gate.  For any ledger state whatsoever — including one
whose `hasAccess` answers `true` for every file — a doctor whose
`successfulConnections` does not contain the patient is denied: both read
actions fail with their permission errors and the diagnosis action returns
the not-connected failure with the record store untouched. -/
theorem consent_gate_denies_unconnected
    (ledger : String → Bool) (P : AeadPrimitives) (keyB64 : Option (List Char))
    (iv : List Nat) (users : UserStore) (records : RecordStore)
    (doctorId patientId recordId : String) (doctorDoc : UserDoc)
    (rec : HealthRecord) (diagnosisData : List (String × Json)) (now : List Char)
    (hne : doctorId ≠ "")
    (hdoc : getUserDocument users doctorId = some doctorDoc)
    (hnot : patientId ∉ doctorDoc.successfulConnections)
    (hrec : getHealthRecord P keyB64 records recordId = Except.ok (some rec))
    (howner : String.mk rec.userId = patientId) :
    getPatientRecordsForDoctor ledger P keyB64 users records doctorId patientId =
        Except.error "You do not have permission to view these records."
      ∧ getPatientRecordForDoctor ledger P keyB64 users records doctorId recordId =
        Except.error "You do not have permission to view this record."
      ∧ addDiagnosisToRecordAction ledger P keyB64 iv users records doctorId
          recordId diagnosisData now =
        Except.ok
          (⟨false, some "You are not connected with this patient."⟩, records) := by
  refine ⟨?_, ?_, ?_⟩
  · unfold getPatientRecordsForDoctor
    rw [if_neg hne, hdoc]
    simp only []
    rw [if_neg hnot]
  · unfold getPatientRecordForDoctor
    rw [hrec]
    simp only []
    rw [hdoc]
    simp only []
    rw [if_neg (fun hmem => hnot (howner ▸ hmem))]
  · unfold addDiagnosisToRecordAction
    rw [hrec]
    simp only []
    rw [hdoc]
    simp only []
    rw [if_neg (fun hmem => hnot (howner ▸ hmem))]

/-- A doctor with no connections at all, and one record owned by `p1`. -/
def wDoctor : UserDoc := ⟨"d1", "d@x.test", "doctor", [], []⟩

def wUsers : UserStore := [("d1", wDoctor)]

def wDoc : StoredDoc :=
  [("userId", FieldValue.str ['p', '1']), ("type", FieldValue.str ['t']),
   ("date", FieldValue.ts 1), ("createdAt", FieldValue.serverTs)]

def wRecords : RecordStore := [("rec1", wDoc)]

/-- Concrete witness for C1: with an all-true ledger oracle the unconnected
doctor `d1` is still denied on all three actions. -/
theorem consent_gate_denies_unconnected_witness :
    getPatientRecordsForDoctor (fun _ => true) cPrims (some cKeyB64) wUsers
        wRecords "d1" "p1" =
        Except.error "You do not have permission to view these records."
      ∧ getPatientRecordForDoctor (fun _ => true) cPrims (some cKeyB64) wUsers
          wRecords "d1" "rec1" =
        Except.error "You do not have permission to view this record."
      ∧ addDiagnosisToRecordAction (fun _ => true) cPrims (some cKeyB64) cIv
          wUsers wRecords "d1" "rec1" [] ['n'] =
        Except.ok
          (⟨false, some "You are not connected with this patient."⟩, wRecords) :=
  consent_gate_denies_unconnected (fun _ => true) cPrims (some cKeyB64) cIv
    wUsers wRecords "d1" "p1" "rec1" wDoctor
    (buildRecordView cPrims (some cKeyB64) "rec1" wDoc) [] ['n']
    (by decide) (by rfl) (by decide) (by rfl) (by rfl)

/-! ## The local plaintext upload route (app/api/upload/route.ts)

The server filesystem is an association of paths to byte contents; the route
writes the uploaded bytes as received (no encryption) under
`public/uploads/<userId>/` — a directory served statically — and answers
with the matching public URL. -/

abbrev FileSys := List (String × List Nat)

def fsGet : FileSys → String → Option (List Nat)
  | [], _ => none
  | (p, v) :: tl, path => if p = path then some v else fsGet tl path

/-- `fs.existsSync`. -/
def fsHas (fs : FileSys) (path : String) : Bool :=
  fs.any (fun q => decide (q.1 = path))

/-- `fs.promises.writeFile`: create or overwrite. -/
def fsSet (fs : FileSys) (path : String) (v : List Nat) : FileSys :=
  if fs.any (fun q => decide (q.1 = path)) then
    fs.map (fun q => if q.1 = path then (path, v) else q)
  else fs ++ [(path, v)]

def maxFileSize : Nat := 10 * 1024 * 1024

def allowedMime : List String :=
  ["application/pdf", "image/png", "image/jpeg", "image/jpg"]

/-- The character class kept by `replace(/[^a-zA-Z0-9.-]/g, '_')`. -/
def isSafeChar (c : Char) : Bool :=
  ('a' ≤ c && c ≤ 'z') || ('A' ≤ c && c ≤ 'Z') || ('0' ≤ c && c ≤ '9') ||
    c = '.' || c = '-'

def sanitizeChar (c : Char) : Char := if isSafeChar c then c else '_'

/-- `replace(/_+/g, '_')`: collapse runs of underscores. -/
def collapseUnderscores : List Char → List Char
  | [] => []
  | c :: tl =>
    match collapseUnderscores tl with
    | [] => [c]
    | d :: ds => if c = '_' ∧ d = '_' then d :: ds else c :: d :: ds

/-- `replace(/^_|_$/g, '')`: strip one leading and one trailing
underscore. -/
def trimUnderscore (s : List Char) : List Char :=
  let s1 := match s with
    | '_' :: tl => tl
    | other => other
  match s1.reverse with
  | '_' :: tl => tl.reverse
  | _ => s1

/-- Index of the last `'.'`, if any. -/
def lastDot : List Char → Option Nat
  | [] => none
  | c :: tl =>
    match lastDot tl with
    | some i => some (i + 1)
    | none => if c = '.' then some 0 else none

/-- `path.extname` / `path.basename(name, ext)` on a slash-free name: split
at the last dot, a leading dot (dotfile) carrying no extension. -/
def splitExt (s : List Char) : List Char × List Char :=
  match lastDot s with
  | none => (s, [])
  | some j => if j = 0 then (s, []) else (s.take j, s.drop j)

/-- The `while (fs.existsSync(...))` suffix loop: starting from the sanitized
name, try `name_1.ext`, `name_2.ext`, … until a free name is found (fuel
bounds the finitely many takeable names). -/
def dedupGo (taken : String → Bool) (base ext : String) :
    Nat → Nat → String → String
  | 0, _, current => current
  | fuel + 1, counter, current =>
    if taken current then
      dedupGo taken base ext fuel (counter + 1)
        (base ++ "_" ++ String.mk (natToChars counter) ++ ext)
    else current

/-- The reply of the upload route. -/
structure UploadReply where
  status : Nat
  error : Option String
  url : Option String
  deriving Repr, DecidableEq

/-- An uploaded multipart file entry. -/
structure UploadedFile where
  name : List Char
  mime : String
  bytes : List Nat
  deriving Repr, DecidableEq

/-- `POST` (app/api/upload/route.ts): validate, sanitize the filename,
deduplicate, then write the received bytes verbatim to
`public/uploads/<userId>/<finalFilename>` and answer with the public URL. -/
def uploadPOST (fs : FileSys) (userId : Option String)
    (file : Option UploadedFile) : UploadReply × FileSys :=
  match userId with
  | none => (⟨400, some "User ID is required", none⟩, fs)
  | some uid =>
    if uid = "" then (⟨400, some "User ID is required", none⟩, fs)
    else
      let uploadDir := "public/uploads/" ++ uid
      match file with
      | none => (⟨400, some "No file uploaded", none⟩, fs)
      | some f =>
        if maxFileSize < f.bytes.length then
          (⟨413, some "File too large (max 10MB)", none⟩, fs)
        else if allowedMime ≠ [] ∧ f.mime ≠ "" ∧ f.mime ∉ allowedMime then
          (⟨415, some "Unsupported file type", none⟩, fs)
        else
          let originalName := if f.name = [] then "file".data else f.name
          let safeFilename :=
            trimUnderscore (collapseUnderscores (originalName.map sanitizeChar))
          let pieces := splitExt safeFilename
          let finalFilename :=
            dedupGo (fun n => fsHas fs (uploadDir ++ "/" ++ n))
              (String.mk pieces.1) (String.mk pieces.2) (fs.length + 1) 1
              (String.mk safeFilename)
          let newPath := uploadDir ++ "/" ++ finalFilename
          (⟨200, none, some ("/uploads/" ++ uid ++ "/" ++ finalFilename)⟩,
           fsSet fs newPath f.bytes)

theorem fsGet_map_set (fs : FileSys) (p : String) (v : List Nat)
    (h : fs.any (fun q => decide (q.1 = p)) = true) :
    fsGet (fs.map (fun q => if q.1 = p then (p, v) else q)) p = some v := by
  induction fs with
  | nil => simp at h
  | cons hd tl ih =>
    obtain ⟨k1, v1⟩ := hd
    simp only [List.map_cons]
    by_cases h1 : k1 = p
    · rw [show (if (k1, v1).1 = p then (p, v) else (k1, v1)) = (p, v) from by
        simp [h1]]
      simp [fsGet]
    · rw [show (if (k1, v1).1 = p then (p, v) else (k1, v1)) = (k1, v1) from by
        simp [h1]]
      simp only [fsGet]
      rw [if_neg h1]
      apply ih
      simpa [h1] using h

theorem fsGet_append_set (fs : FileSys) (p : String) (v : List Nat)
    (h : ¬ fs.any (fun q => decide (q.1 = p)) = true) :
    fsGet (fs ++ [(p, v)]) p = some v := by
  induction fs with
  | nil => simp [fsGet]
  | cons hd tl ih =>
    obtain ⟨k1, v1⟩ := hd
    simp only [List.cons_append, fsGet, List.append_eq]
    by_cases h1 : k1 = p
    · exact absurd (by simp [h1]) h
    · rw [if_neg h1]
      apply ih
      intro htl
      exact h (by simp [htl])

theorem fsGet_fsSet (fs : FileSys) (p : String) (v : List Nat) :
    fsGet (fsSet fs p v) p = some v := by
  unfold fsSet
  split
  · rename_i h
    exact fsGet_map_set fs p v h
  · rename_i h
    exact fsGet_append_set fs p v h

/-- The filename the route settles on: sanitized, collapsed, trimmed, then
deduplicated against the existing files. -/
def chosenName (fs : FileSys) (uid : String) (f : UploadedFile) : String :=
  let uploadDir := "public/uploads/" ++ uid
  let originalName := if f.name = [] then "file".data else f.name
  let safeFilename :=
    trimUnderscore (collapseUnderscores (originalName.map sanitizeChar))
  let pieces := splitExt safeFilename
  dedupGo (fun n => fsHas fs (uploadDir ++ "/" ++ n))
    (String.mk pieces.1) (String.mk pieces.2) (fs.length + 1) 1
    (String.mk safeFilename)

/-- Success shape of the upload route: the bytes land verbatim under
`public/uploads/<uid>/`, and the reply carries the matching public URL. -/
theorem uploadPOST_ok (fs : FileSys) (uid : String) (f : UploadedFile)
    (huid : uid ≠ "") (hsize : f.bytes.length ≤ maxFileSize)
    (hmime : f.mime ∈ allowedMime) :
    uploadPOST fs (some uid) (some f) =
      (⟨200, none, some ("/uploads/" ++ uid ++ "/" ++ chosenName fs uid f)⟩,
       fsSet fs ("public/uploads/" ++ uid ++ "/" ++ chosenName fs uid f)
         f.bytes) := by
  have h1 : ¬ maxFileSize < f.bytes.length := by omega
  have h2 : ¬ (allowedMime ≠ [] ∧ f.mime ≠ "" ∧ f.mime ∉ allowedMime) :=
    fun hc => hc.2.2 hmime
  simp [uploadPOST, chosenName, huid, h1, h2]

/-! ## The record-form pipeline (HealthRecordForm.tsx)

`onSubmit` with an attachment: the plaintext file is POSTed to the local
`/api/upload` route first; only afterwards is the AES-GCM-encrypted copy
pinned (the pinning service assigns the CID), and the record is saved with
the local public URL and the pin data.  The attachment's key and IV are
generated client-side per upload. -/

/-- The form values destructured by `onSubmit` (minus the attachment). -/
structure FormValues where
  title : List Char
  content : List Char
  date : Int
  type : List Char
  bloodPressure : Option (List Char)
  pulseRate : Option Int

/-- Events of one submission, in execution order. -/
inductive SubmitEvent where
  | localUpload (bytes : List Nat)
  | pinUpload (bytes : List Nat)
  | recordWrite
  deriving Repr, DecidableEq

structure SubmitOutcome where
  events : List SubmitEvent
  fs : FileSys
  record : Option StoredDoc
  failed : Bool

/-- `onSubmit` with a selected attachment (wallet disconnected, so no chain
write): local plaintext upload, then encrypted pin, then `addHealthRecord`
with the returned public URL and pin data. -/
def onSubmitWithAttachment (P : AeadPrimitives) (recKeyB64 : Option (List Char))
    (recIv fileKey fileIv : List Nat) (cid : String) (fs : FileSys)
    (uid : String) (v : FormValues) (file : UploadedFile) : SubmitOutcome :=
  let res := uploadPOST fs (some uid) (some file)
  match res.1.url with
  | none => ⟨[SubmitEvent.localUpload file.bytes], res.2, none, true⟩
  | some fileUrl =>
    let ciphertext := gcmEncrypt P fileKey fileIv file.bytes
    let rinput : RecordInput :=
      { type := v.type, date := v.date, title := v.title, content := v.content,
        bloodPressure := v.bloodPressure, pulseRate := v.pulseRate,
        diagnosis := none, attachmentUrl := some fileUrl.data,
        attachmentCid := some cid.data,
        attachmentEncryptionKey := some (base64Encode fileKey),
        attachmentEncryptionIv := some (base64Encode fileIv) }
    match addHealthRecord P recKeyB64 recIv uid.data rinput with
    | .ok doc =>
      ⟨[SubmitEvent.localUpload file.bytes, SubmitEvent.pinUpload ciphertext,
        SubmitEvent.recordWrite], res.2, some doc, false⟩
    | .error _ =>
      ⟨[SubmitEvent.localUpload file.bytes, SubmitEvent.pinUpload ciphertext],
       res.2, none, true⟩

/-- C3: a successful submission with an attachment POSTs the plaintext bytes
to `/api/upload` before anything reaches the pinning service; the route
stores those bytes unencrypted at the publicly served
`public/uploads/<uid>/<final>` path; and the record keeps the matching
`/uploads/<uid>/<final>` URL (inside its encrypted payload) — so an
unencrypted copy of the attachment exists outside the encrypted storage
path. -/
theorem attachment_gets_plaintext_public_copy
    (P : AeadPrimitives) (recKeyB64 : List Char) (recKey : List Nat)
    (recIv fileKey fileIv : List Nat) (cid : String) (fs : FileSys)
    (uid : String) (v : FormValues) (file : UploadedFile)
    (hkey : base64Decode recKeyB64 = some recKey) (hklen : recKey.length = 32)
    (hiv : IsBytes recIv)
    (hblock : ∀ k c, IsBytes (P.block k c))
    (htaglen : ∀ k i b, (P.tag k i b).length = 16)
    (htagbytes : ∀ k i b, IsBytes (P.tag k i b))
    (huid : uid ≠ "") (hsize : file.bytes.length ≤ maxFileSize)
    (hmime : file.mime ∈ allowedMime) :
    ∃ final blob,
      (onSubmitWithAttachment P (some recKeyB64) recIv fileKey fileIv cid fs
          uid v file).failed = false
      ∧ (onSubmitWithAttachment P (some recKeyB64) recIv fileKey fileIv cid fs
          uid v file).events =
          [SubmitEvent.localUpload file.bytes,
           SubmitEvent.pinUpload (gcmEncrypt P fileKey fileIv file.bytes),
           SubmitEvent.recordWrite]
      ∧ fsGet (onSubmitWithAttachment P (some recKeyB64) recIv fileKey fileIv
            cid fs uid v file).fs
          ("public/uploads/" ++ uid ++ "/" ++ final) = some file.bytes
      ∧ (onSubmitWithAttachment P (some recKeyB64) recIv fileKey fileIv cid fs
          uid v file).record = some
          [("userId", FieldValue.str uid.data), ("type", FieldValue.str v.type),
           ("date", FieldValue.ts v.date), ("createdAt", FieldValue.serverTs),
           ("encryptedData", FieldValue.blob blob)]
      ∧ decryptObject P (some recKeyB64) blob = Except.ok (sensitivePayload
          { type := v.type, date := v.date, title := v.title,
            content := v.content, bloodPressure := v.bloodPressure,
            pulseRate := v.pulseRate, diagnosis := none,
            attachmentUrl :=
              some ("/uploads/" ++ uid ++ "/" ++ final).data,
            attachmentCid := some cid.data,
            attachmentEncryptionKey := some (base64Encode fileKey),
            attachmentEncryptionIv := some (base64Encode fileIv) }) := by
  have hgk : getCryptoKey (some recKeyB64) = Except.ok recKey :=
    getCryptoKey_ok hkey hklen
  have hpost := uploadPOST_ok fs uid file huid hsize hmime
  have henc : ∀ r : RecordInput,
      addHealthRecord P (some recKeyB64) recIv uid.data r = Except.ok
        [("userId", FieldValue.str uid.data), ("type", FieldValue.str r.type),
         ("date", FieldValue.ts r.date), ("createdAt", FieldValue.serverTs),
         ("encryptedData",
          FieldValue.blob (encBlob P recKey recIv (sensitivePayload r)))] := by
    intro r
    unfold addHealthRecord
    rw [encryptObject_eq P recIv _ hgk]
  have hout : onSubmitWithAttachment P (some recKeyB64) recIv fileKey fileIv
      cid fs uid v file =
      ⟨[SubmitEvent.localUpload file.bytes,
        SubmitEvent.pinUpload (gcmEncrypt P fileKey fileIv file.bytes),
        SubmitEvent.recordWrite],
       fsSet fs ("public/uploads/" ++ uid ++ "/" ++ chosenName fs uid file)
         file.bytes,
       some
         [("userId", FieldValue.str uid.data), ("type", FieldValue.str v.type),
          ("date", FieldValue.ts v.date), ("createdAt", FieldValue.serverTs),
          ("encryptedData", FieldValue.blob (encBlob P recKey recIv
            (sensitivePayload
              { type := v.type, date := v.date, title := v.title,
                content := v.content, bloodPressure := v.bloodPressure,
                pulseRate := v.pulseRate, diagnosis := none,
                attachmentUrl := some
                  ("/uploads/" ++ uid ++ "/" ++ chosenName fs uid file).data,
                attachmentCid := some cid.data,
                attachmentEncryptionKey := some (base64Encode fileKey),
                attachmentEncryptionIv := some (base64Encode fileIv) })))],
       false⟩ := by
    simp only [onSubmitWithAttachment, hpost, henc]
  refine ⟨chosenName fs uid file,
    encBlob P recKey recIv (sensitivePayload
      { type := v.type, date := v.date, title := v.title,
        content := v.content, bloodPressure := v.bloodPressure,
        pulseRate := v.pulseRate, diagnosis := none,
        attachmentUrl :=
          some ("/uploads/" ++ uid ++ "/" ++ chosenName fs uid file).data,
        attachmentCid := some cid.data,
        attachmentEncryptionKey := some (base64Encode fileKey),
        attachmentEncryptionIv := some (base64Encode fileIv) }),
    ?_, ?_, ?_, ?_, ?_⟩
  · rw [hout]
  · rw [hout]
  · rw [hout]
    exact fsGet_fsSet _ _ _
  · rw [hout]
  · exact decryptObject_encBlob P recIv _ hkey hklen hiv hblock htaglen htagbytes

def wFile : UploadedFile := ⟨['a', '.', 'p', 'd', 'f'], "application/pdf", [1, 2, 3]⟩

def wVals : FormValues := ⟨['t'], ['c'], 5, ['n', 'o', 't', 'e'], none, some 70⟩

def wFileKey : List Nat := List.replicate 32 9

def wFileIv : List Nat := List.replicate 12 2

/-- Concrete witness for C3: submitting `a.pdf` (bytes `[1, 2, 3]`) as user
`u1` over an empty server filesystem. -/
theorem attachment_gets_plaintext_public_copy_witness :
    ∃ final blob,
      (onSubmitWithAttachment cPrims (some cKeyB64) cIv wFileKey wFileIv "Qm1"
          [] "u1" wVals wFile).failed = false
      ∧ (onSubmitWithAttachment cPrims (some cKeyB64) cIv wFileKey wFileIv
          "Qm1" [] "u1" wVals wFile).events =
          [SubmitEvent.localUpload wFile.bytes,
           SubmitEvent.pinUpload (gcmEncrypt cPrims wFileKey wFileIv wFile.bytes),
           SubmitEvent.recordWrite]
      ∧ fsGet (onSubmitWithAttachment cPrims (some cKeyB64) cIv wFileKey
            wFileIv "Qm1" [] "u1" wVals wFile).fs
          ("public/uploads/" ++ "u1" ++ "/" ++ final) = some wFile.bytes
      ∧ (onSubmitWithAttachment cPrims (some cKeyB64) cIv wFileKey wFileIv
          "Qm1" [] "u1" wVals wFile).record = some
          [("userId", FieldValue.str "u1".data),
           ("type", FieldValue.str wVals.type),
           ("date", FieldValue.ts wVals.date), ("createdAt", FieldValue.serverTs),
           ("encryptedData", FieldValue.blob blob)]
      ∧ decryptObject cPrims (some cKeyB64) blob = Except.ok (sensitivePayload
          { type := wVals.type, date := wVals.date, title := wVals.title,
            content := wVals.content, bloodPressure := wVals.bloodPressure,
            pulseRate := wVals.pulseRate, diagnosis := none,
            attachmentUrl := some ("/uploads/" ++ "u1" ++ "/" ++ final).data,
            attachmentCid := some "Qm1".data,
            attachmentEncryptionKey := some (base64Encode wFileKey),
            attachmentEncryptionIv := some (base64Encode wFileIv) }) :=
  attachment_gets_plaintext_public_copy cPrims cKeyB64 cKeyBytes cIv wFileKey
    wFileIv "Qm1" [] "u1" wVals wFile cKeyB64_decodes cKeyBytes_len cIv_isBytes
    cPrims_block cPrims_taglen cPrims_tagbytes (by decide) (by decide)
    (by decide)

/-! ## SHA-256 (`crypto.subtle.digest('SHA-256', …)`)

`sha256ArrayBuffer` in the form hashes the attachment ciphertext before
pinning and stores the lowercase-hex digest with the pin request; the
browser primitive is the standard FIPS 180-4 SHA-256, embedded here
executably over byte lists (32-bit words as `Nat % 2^32`). -/

def rotr32 (n x : Nat) : Nat := ((x >>> n) ||| (x <<< (32 - n))) % 4294967296

def shaCh (e f g : Nat) : Nat := (e &&& f) ^^^ ((e ^^^ 4294967295) &&& g)

def shaMaj (a b c : Nat) : Nat := (a &&& b) ^^^ (a &&& c) ^^^ (b &&& c)

def shaS0 (x : Nat) : Nat := rotr32 2 x ^^^ rotr32 13 x ^^^ rotr32 22 x

def shaS1 (x : Nat) : Nat := rotr32 6 x ^^^ rotr32 11 x ^^^ rotr32 25 x

def shas0 (x : Nat) : Nat := rotr32 7 x ^^^ rotr32 18 x ^^^ (x >>> 3)

def shas1 (x : Nat) : Nat := rotr32 17 x ^^^ rotr32 19 x ^^^ (x >>> 10)

def shaK : List Nat :=
  [1116352408, 1899447441, 3049323471, 3921009573, 961987163, 1508970993,
   2453635748, 2870763221, 3624381080, 310598401, 607225278, 1426881987,
   1925078388, 2162078206, 2614888103, 3248222580, 3835390401, 4022224774,
   264347078, 604807628, 770255983, 1249150122, 1555081692, 1996064986,
   2554220882, 2821834349, 2952996808, 3210313671, 3336571891, 3584528711,
   113926993, 338241895, 666307205, 773529912, 1294757372, 1396182291,
   1695183700, 1986661051, 2177026350, 2456956037, 2730485921, 2820302411,
   3259730800, 3345764771, 3516065817, 3600352804, 4094571909, 275423344,
   430227734, 506948616, 659060556, 883997877, 958139571, 1322822218,
   1537002063, 1747873779, 1955562222, 2024104815, 2227730452, 2361852424,
   2428436474, 2756734187, 3204031479, 3329325298]

def shaH0 : List Nat :=
  [1779033703, 3144134277, 1013904242, 2773480762,
   1359893119, 2600822924, 528734635, 1541459225]

/-- Big-endian 32-bit words of a 64-byte block. -/
def be32Words : List Nat → List Nat
  | a :: b :: c :: d :: tl => (((a * 256 + b) * 256 + c) * 256 + d) :: be32Words tl
  | _ => []

/-- Message-schedule extension by `n` further words. -/
def extendW (w : List Nat) : Nat → List Nat
  | 0 => w
  | n + 1 =>
    let w' := extendW w n
    let l := w'.length
    w' ++ [(shas1 (w'.getD (l - 2) 0) + w'.getD (l - 7) 0 +
            shas0 (w'.getD (l - 15) 0) + w'.getD (l - 16) 0) % 4294967296]

def shaRound (st : List Nat) (ki wi : Nat) : List Nat :=
  match st with
  | [a, b, c, d, e, f, g, h] =>
    let temp1 := (h + shaS1 e + shaCh e f g + ki + wi) % 4294967296
    let temp2 := (shaS0 a + shaMaj a b c) % 4294967296
    [(temp1 + temp2) % 4294967296, a, b, c, (d + temp1) % 4294967296, e, f, g]
  | other => other

def shaCompress (hs block : List Nat) : List Nat :=
  let w := extendW (be32Words block) 48
  let st := (List.range 64).foldl
    (fun st i => shaRound st (shaK.getD i 0) (w.getD i 0)) hs
  List.zipWith (fun x y => (x + y) % 4294967296) hs st

def shaBlocksGo : Nat → List Nat → List Nat → List Nat
  | 0, hs, _ => hs
  | fuel + 1, hs, bytes =>
    match bytes with
    | [] => hs
    | _ => shaBlocksGo fuel (shaCompress hs (bytes.take 64)) (bytes.drop 64)

def be64 (n : Nat) : List Nat :=
  [n / 72057594037927936 % 256, n / 281474976710656 % 256,
   n / 1099511627776 % 256, n / 4294967296 % 256, n / 16777216 % 256,
   n / 65536 % 256, n / 256 % 256, n % 256]

/-- FIPS 180-4 padding: `0x80`, zeros to 56 mod 64, 64-bit bit length. -/
def shaPad (m : List Nat) : List Nat :=
  m ++ [128] ++ List.replicate ((119 - m.length % 64) % 64) 0 ++
    be64 (8 * m.length)

def sha256Bytes (m : List Nat) : List Nat :=
  let padded := shaPad m
  (shaBlocksGo padded.length shaH0 padded).flatMap
    (fun w => [w / 16777216 % 256, w / 65536 % 256, w / 256 % 256, w % 256])

/-- `sha256ArrayBuffer` (HealthRecordForm.tsx): digest bytes rendered as
lowercase hex (`b.toString(16).padStart(2, '0')`). -/
def sha256Hex (m : List Nat) : List Char :=
  (sha256Bytes m).flatMap (fun b => [hexDigit (b / 16), hexDigit (b % 16)])

/-! ## The attachment viewer (`PinataFileViewer`, part of the dashboard)

`handleView` and `handleDownload` share the same fetch-and-decrypt logic
(they differ only in what the browser does with the blob URL), so one
function models both.  The component's props carry the CID and the base64
key and IV — no digest of any kind is passed to it. -/

def strStartsWith : List Char → List Char → Bool
  | _, [] => true
  | [], _ :: _ => false
  | c :: cs, d :: ds => c = d && strStartsWith cs ds

/-- `String.prototype.includes`. -/
def strIncludes : List Char → List Char → Bool
  | [], needle => decide (needle = [])
  | c :: tl, needle => strStartsWith (c :: tl) needle || strIncludes tl needle

inductive ViewOutcome where
  | opened (bytes : List Nat)
  | failed (msg : String)
  deriving Repr, DecidableEq

/-- `decryptFile` (PinataFileViewer): `atob` the key and IV, import the raw
256-bit key, `subtle.decrypt` AES-GCM.  Each failure throws inside the
viewer's inner `try`. -/
def decryptFile (P : AeadPrimitives) (encryptedData : List Nat)
    (keyBase64 ivBase64 : List Char) : Except String (List Nat) :=
  match base64Decode keyBase64 with
  | none => .error "InvalidCharacterError"
  | some keyBytes =>
    match base64Decode ivBase64 with
    | none => .error "InvalidCharacterError"
    | some ivBytes =>
      if keyBytes.length ≠ 32 then .error "AES key data must be 256 bits"
      else
        match gcmDecrypt P keyBytes ivBytes encryptedData with
        | none => .error "OperationError"
        | some pt => .ok pt

/-- The catch-block text used when the fetch error mentions
`Failed to fetch`. -/
def viewerNetworkErrorMsg (cid : String) : String :=
  "Network error: Could not fetch file from IPFS. This might be due to:\n" ++
  "1. File not pinned in Pinata\n2. Network connectivity issues\n" ++
  "3. CORS restrictions\n\nCID: " ++ String.mk (cid.data.take 20) ++
  "...\nTry checking Pinata dashboard to verify the file is pinned."

/-- `handleView` / `handleDownload`: fetch the ciphertext from the gateways,
then — when the key and IV props are truthy — decrypt and hand the plaintext
to the browser.  Nothing is compared against any digest between the fetch
and the decrypt. -/
def viewerRead (subdomain : Option String)
    (responses : String → GatewayBehaviour) (P : AeadPrimitives)
    (cid : String) (encryptionKey iv : Option (List Char)) : ViewOutcome :=
  if cid = "" then .failed "No CID provided"
  else
    match (getEncryptedFile subdomain responses cid).1 with
    | .error e =>
      if strIncludes e.data "Failed to fetch".data then
        .failed (viewerNetworkErrorMsg cid)
      else .failed e
    | .ok encryptedData =>
      match encryptionKey, iv with
      | some keyB64, some ivB64 =>
        if keyB64 = [] ∨ ivB64 = [] then
          .failed "Encryption keys not available. Cannot decrypt file."
        else
          match decryptFile P encryptedData keyB64 ivB64 with
          | .error m => .failed ("Decryption failed: " ++ m)
          | .ok dec => .opened dec
      | _, _ => .failed "Encryption keys not available. Cannot decrypt file."

/-- C6 (amended): on a read of an attachment the viewer goes straight from
the fetched gateway bytes to AES-GCM decryption — no digest is computed or
compared in between (the component is never given the record's `sha256`), so
the GCM tag is the only integrity check; a decryption failure is reported as
`Decryption failed: …`, distinct from the fetch-failure messages. -/
theorem viewerRead_fetch_then_decrypt
    (subdomain : Option String) (responses : String → GatewayBehaviour)
    (P : AeadPrimitives) (cid : String) (keyB64 ivB64 : List Char)
    (bytes : List Nat)
    (hcid : cid ≠ "") (hkey : keyB64 ≠ []) (hiv : ivB64 ≠ [])
    (hfetch : (getEncryptedFile subdomain responses cid).1 = Except.ok bytes) :
    (∀ pt, decryptFile P bytes keyB64 ivB64 = Except.ok pt →
      viewerRead subdomain responses P cid (some keyB64) (some ivB64) =
        ViewOutcome.opened pt)
    ∧ (∀ m, decryptFile P bytes keyB64 ivB64 = Except.error m →
      viewerRead subdomain responses P cid (some keyB64) (some ivB64) =
        ViewOutcome.failed ("Decryption failed: " ++ m)) := by
  have hbase : viewerRead subdomain responses P cid (some keyB64) (some ivB64) =
      match decryptFile P bytes keyB64 ivB64 with
      | .error m => ViewOutcome.failed ("Decryption failed: " ++ m)
      | .ok dec => ViewOutcome.opened dec := by
    unfold viewerRead
    rw [if_neg hcid, hfetch]
    simp only []
    rw [if_neg (by
      rintro (h1 | h2)
      · exact hkey h1
      · exact hiv h2)]
  constructor
  · intro pt hdec
    rw [hbase, hdec]
  · intro m hdec
    rw [hbase, hdec]

/-- The ciphertext actually pinned for plaintext `[1, 2, 3]`; its digest is
the `sha256` stored with the pin. -/
def origCt : List Nat := gcmEncrypt cPrims wFileKey wFileIv [1, 2, 3]

/-- Different bytes with the same (constant) 16-byte tag: what a tampering
gateway serves. -/
def tamperedCt : List Nat := [9, 9, 9] ++ List.replicate 16 3

/-- Every gateway serves the tampered body with HTTP 200. -/
def tamperResponses : String → GatewayBehaviour :=
  fun _ => ⟨0, GatewayReply.http 200 "OK" tamperedCt⟩

set_option maxRecDepth 10000 in
/-- C6 counterexample: the tampered bytes differ from the pinned ciphertext
and their SHA-256 digest differs from the stored one, yet the viewer opens
the decryption of the tampered bytes — no digest verification happens on
the read path. -/
theorem viewerRead_no_digest_check :
    sha256Hex tamperedCt ≠ sha256Hex origCt
    ∧ tamperedCt ≠ origCt
    ∧ viewerRead none tamperResponses cPrims "QmTamper"
        (some (base64Encode wFileKey)) (some (base64Encode wFileIv)) =
      ViewOutcome.opened [14, 14, 14] :=
  ⟨by decide, by decide, rfl⟩

/-- Concrete witness for the amended C6 theorem: the same tampered run,
reaching `opened` through the fetch-then-decrypt characterisation. -/
theorem viewerRead_fetch_then_decrypt_witness :
    viewerRead none tamperResponses cPrims "QmTamper"
        (some (base64Encode wFileKey)) (some (base64Encode wFileIv)) =
      ViewOutcome.opened [14, 14, 14] :=
  (viewerRead_fetch_then_decrypt none tamperResponses cPrims "QmTamper"
    (base64Encode wFileKey) (base64Encode wFileIv) tamperedCt (by decide)
    (by decide) (by decide) (by rfl)).1 [14, 14, 14] (by rfl)
